import Mathlib

/-!
Verification of the Grundner stock-reservation simulator
(src/simulation/simulator.py, with the parallel copy in
src/simulation/grundner_sim.py).

The embedding models the pure compute core of each handler.  The
filesystem is abstracted into a record of the watched-folder files that
the handlers read and write; sleeps, timestamps used only inside archive
filenames, and log printing are dropped.  A bounded readiness wait
(wait_for_file_ready) is modelled as succeeding exactly when the file
exists, since in the single-writer abstraction an existing file is
openable.  Python operations that can raise (indexing a list cell for
writing) are modelled with Option: a none result corresponds to an
uncaught exception escaping the handler.
-/

/-! ## Python string and number helpers -/

/-- Whitespace recognized by the Python str.strip used in the source
(ASCII space, tab, newline, carriage return, vertical tab, form feed). -/
def isSpaceChar (c : Char) : Bool :=
  c == ' ' || c == '\t' || c == '\n' || c == '\r' ||
  c == Char.ofNat 11 || c == Char.ofNat 12

/-- ASCII decimal digit (the inputs handled by the simulator are ASCII;
the wider unicode digits accepted by Python are out of scope). -/
def isDigitC (c : Char) : Bool :=
  c == '0' || c == '1' || c == '2' || c == '3' || c == '4' ||
  c == '5' || c == '6' || c == '7' || c == '8' || c == '9'

/-- ASCII lowercasing, the fragment of Python str.lower the simulator
relies on (inputs compared after lowering are ASCII). -/
def charLower (c : Char) : Char :=
  if 'A' ≤ c ∧ c ≤ 'Z' then Char.ofNat (c.toNat + 32) else c

/-- Python str.strip on a character list. -/
def stripChars (cs : List Char) : List Char :=
  ((cs.dropWhile isSpaceChar).reverse.dropWhile isSpaceChar).reverse

def lowerChars (cs : List Char) : List Char := cs.map charLower

/-- Python str.strip. -/
def pyStrip (s : String) : String := ⟨stripChars s.data⟩

/-- Python str.lower (ASCII fragment). -/
def pyLower (s : String) : String := ⟨lowerChars s.data⟩

/-- Python str.split on a one-character separator: always returns at
least one group, and empty groups are kept. -/
def splitChar (sep : Char) : List Char → List (List Char)
  | [] => [[]]
  | c :: rest =>
    match splitChar sep rest with
    | [] => [[c]]
    | g :: gs => if c == sep then [] :: g :: gs else (c :: g) :: gs

def pySplit (sep : Char) (s : String) : List String :=
  (splitChar sep s.data).map (fun cs => (⟨cs⟩ : String))

/-- The text.replace of CRLF by LF done before line splitting. -/
def replaceCRLF : List Char → List Char
  | [] => []
  | '\r' :: '\n' :: rest => '\n' :: replaceCRLF rest
  | c :: rest => c :: replaceCRLF rest

/-- Non-blank lines of a request file, exactly as every handler computes
them: replace CRLF by LF, split on LF, keep lines whose strip is
non-empty (the kept lines stay unstripped). -/
def splitNonblankLines (text : String) : List String :=
  ((splitChar '\n' (replaceCRLF text.data)).map (fun cs => (⟨cs⟩ : String))).filter
    (fun ln => pyStrip ln != "")

/-- Value of a big-endian ASCII digit run. -/
def digitsToNat (cs : List Char) : Nat :=
  cs.foldl (fun a c => 10 * a + (c.toNat - 48)) 0

def digitChar (d : Nat) : Char := Char.ofNat (48 + d)

/-- Fueled decimal rendering of a Nat (big-endian digit characters);
the fuel argument only forces structural termination. -/
def natCharsAux : Nat → Nat → List Char
  | 0, _ => []
  | fuel + 1, n =>
    if n < 10 then [digitChar n]
    else natCharsAux fuel (n / 10) ++ [digitChar (n % 10)]

def natChars (n : Nat) : List Char := natCharsAux (n + 1) n

/-- Python str of a non-negative int. -/
def natToStr (n : Nat) : String := ⟨natChars n⟩

/-- Python str of an int. -/
def intToStr (n : Int) : String :=
  if n < 0 then ⟨'-' :: natChars n.natAbs⟩ else ⟨natChars n.toNat⟩

/-- Optional leading sign of a numeric literal. -/
def splitSign : List Char → Bool × List Char
  | [] => (false, [])
  | c :: rest =>
    if c == '-' then (true, rest)
    else if c == '+' then (false, rest)
    else (false, c :: rest)

/-- Python int(float(s)) on a stripped string, for the plain decimal
forms sign, digits, optional point and fraction digits (the exponent,
underscore, infinity and NaN forms of Python float literals are not
modelled; every simulator-written cell is a plain decimal).  Truncates
toward zero, which for those forms is the signed integer part. -/
def parseFloatTrunc (cs : List Char) : Option Int :=
  let sp := splitSign cs
  let intPart := sp.2.takeWhile isDigitC
  let rest := sp.2.dropWhile isDigitC
  let ok : Bool :=
    match rest with
    | [] => !intPart.isEmpty
    | '.' :: frac => (!intPart.isEmpty || !frac.isEmpty) && frac.all isDigitC
    | _ => false
  if ok then
    let v : Int := Int.ofNat (digitsToNat intPart)
    some (if sp.1 then -v else v)
  else none

/-- Python int(s) on a stripped string: optional sign then digits. -/
def parseIntPy (cs : List Char) : Option Int :=
  let sp := splitSign cs
  if sp.2.isEmpty then none
  else if sp.2.all isDigitC then
    let v : Int := Int.ofNat (digitsToNat sp.2)
    some (if sp.1 then -v else v)
  else none

/-- The tolerant integer coercion _coerce_int of the source: strip, map
blank and NA and NULL to zero, otherwise int(float(s)) with any parse
failure giving zero. -/
def coerceInt : Option String → Int
  | none => 0
  | some v =>
    let cs := stripChars v.data
    if cs = [] then 0
    else if lowerChars cs = "na".data ∨ lowerChars cs = "null".data then 0
    else
      match parseFloatTrunc cs with
      | some n => n
      | none => 0

/-- Python str.isdigit (ASCII fragment): non-empty and all digits. -/
def pyIsdigit (cs : List Char) : Bool := !cs.isEmpty && cs.all isDigitC

/-- Dictionary lookup for the Python dicts modelled as assignment lists:
an assignment appended later overwrites an earlier one for the same key,
so the lookup takes the last matching entry. -/
def dget {α : Type} (l : List (String × α)) (k : String) : Option α :=
  (l.reverse.find? (fun p => p.1 == k)).map (fun p => p.2)

/-- _normalize_nc_key: strip, lower, and append the .nc suffix when it
is missing; empty input stays empty. -/
def normalizeNcKey (name : String) : String :=
  let key := pyLower (pyStrip name)
  if key = "" then ""
  else if (".nc".data).isSuffixOf key.data then key
  else ⟨key.data ++ ".nc".data⟩

/-- Python sep.join. -/
def joinSep (sep : String) : List String → String
  | [] => ""
  | [x] => x
  | x :: y :: rest => x ++ sep ++ joinSep sep (y :: rest)

/-- Concatenation of rows, each followed by CRLF. -/
def concatCRLF (l : List String) : String :=
  l.foldr (fun r acc => r ++ "\r\n" ++ acc) ""

/-- Python list-cell assignment row[i] = a: out of range raises, which
the embedding reports as none. -/
def listSet? {α : Type} (l : List α) (i : Nat) (a : α) : Option (List α) :=
  if i < l.length then some (l.set i a) else none

/-! ## Shared data model (identical in both copies of the source) -/

/-- Header and rows of the inventory ledger file, as read_inventory
returns them (all cells verbatim strings). -/
structure Ledger where
  header : List String
  rows : List (List String)
deriving DecidableEq, Repr

/-- Default header written by ensure_inventory_file when the ledger is
absent. -/
def DEFAULT_INVENTORY_HEADER : List String :=
  ["type_data", "customer_id", "NA", "length_mm", "width_mm", "thickness_mm", "NA",
   "stock", "stock_available", "NA", "NA", "NA", "NA", "NA", "NA",
   "reserved_stock", "NA", "NA", "NA"]

/-- _normalize_header. -/
def normalizeHeader (raw : String) : String := pyLower (pyStrip raw)

def findColumnAux (lname : String) : List String → Nat → Option Nat
  | [], _ => none
  | c :: rest, i =>
    if normalizeHeader c = lname then some i else findColumnAux lname rest (i + 1)

/-- _find_column: first header cell whose normalized form equals the
lowered name. -/
def findColumn (header : List String) (name : String) : Option Nat :=
  findColumnAux (pyLower name) header 0

/-- parse_order_csv_line: strip the line, split on semicolons, strip the
parts, pad with blanks; quantity defaults to 1 and is floored at 1. -/
def parse_order_csv_line (line : String) : String × String × Int :=
  let ps := (pySplit ';' (pyStrip line)).map pyStrip
  let nc := ps[0]?.getD ""
  let material := ps[1]?.getD ""
  let qstr := ps[2]?.getD ""
  let qty := ((parseIntPy (if qstr = "" then "1" else qstr).data).getD 1)
  (nc, material, max 1 qty)

/-- The per-line record derive_row_from_request produces (both copies
use the same shape; the source returns it as a tuple in the order
job_no, type, material, qty, rotation, machine, source, reservation). -/
structure DerivedRow where
  job_no : String
  type_col : String
  material_col : String
  qty : Int
  rot : Int
  mach : Int
  src : Int
  res : Int
deriving DecidableEq, Repr

/-- The abstracted watched folder as the Grundner handlers see it:
contents of each request and reply file (none when absent), the
persisted NC-to-material JSON sidecar as its key-value entries, the
in-memory session map _nc_to_material as its accumulated assignments,
and the texts of the archived order_saw.*.processed.csv files sorted
oldest to newest. -/
structure GrundnerFS where
  orderText : Option String
  erl : Option String
  inv : Option Ledger
  sidecar : List (String × String)
  mem : List (String × String)
  archivedOrders : List String
  prodDelReq : Option String
  prodDelAns : Option String
deriving DecidableEq, Repr

/-- _load_nc_map: normalize every key, drop the empty ones, stringify
and strip every value (the JSON layer itself is abstracted: corrupt or
missing sidecars are the empty entry list). -/
def loadNcMap (l : List (String × String)) : List (String × String) :=
  l.filterMap (fun p =>
    let nk := normalizeNcKey p.1
    if nk = "" then none else some (nk, pyStrip p.2))

/-- Row-index dictionaries by_type and by_cust: for each row whose key
cell exists and strips to a non-empty token, assign that token to the
row position; later rows overwrite earlier ones. -/
def buildByIdx (idxKey : Option Nat) : List (List String) → Nat → List (String × Nat)
  | [], _ => []
  | row :: rest, i =>
    (match idxKey with
     | none => []
     | some k =>
       match row[k]? with
       | none => []
       | some cell =>
         let tok := pyStrip cell
         if tok = "" then [] else [(tok, i)]) ++ buildByIdx idxKey rest (i + 1)

/-! ## simulator.py: order handler -/

/-- The reservation applied to the matched row in handle_order_csv:
reserved_stock increases by the (floored) quantity clamped at zero, and
stock_available is recomputed as max 0 (stock - reserved_stock); the two
cells are written back in the order stock_available, reserved_stock. -/
def Sim.applyOrderUpdate (iS iA iR : Nat) (qty : Int) (k : Nat)
    (rows : List (List String)) : Option (List (List String)) :=
  match rows[k]? with
  | none => none
  | some row =>
    let stockVal := coerceInt row[iS]?
    let resvdVal := coerceInt row[iR]?
    let resvd' := max 0 (resvdVal + max 1 qty)
    let avail' := max 0 (stockVal - resvd')
    match listSet? row iA (intToStr avail') with
    | none => none
    | some r1 =>
      match listSet? r1 iR (intToStr resvd') with
      | none => none
      | some r2 => some (rows.set k r2)

/-- The per-line loop of handle_order_csv: record the NC-to-material
mapping for every line with a non-empty normalized NC name, look the
material up in the id-mode index, and update the matched row; lines
with no match are skipped. -/
def Sim.orderLoop (mode : String) (iS iA iR : Nat)
    (byT byC : List (String × Nat)) :
    List String → List (List String) → List (String × String) → List (String × String) →
      Option (List (List String) × List (String × String) × List (String × String))
  | [], rows, mem, upd => some (rows, mem, upd)
  | ln :: rest, rows, mem, upd =>
    let p := parse_order_csv_line ln
    let ncKey := normalizeNcKey p.1
    let mat := pyStrip p.2.1
    let mem' := if ncKey = "" then mem else mem ++ [(ncKey, mat)]
    let upd' := if ncKey = "" then upd else upd ++ [(ncKey, mat)]
    match (if mode == "type_data" then dget byT p.2.1 else dget byC p.2.1) with
    | none => Sim.orderLoop mode iS iA iR byT byC rest rows mem' upd'
    | some k =>
      match Sim.applyOrderUpdate iS iA iR p.2.2 k rows with
      | none => none
      | some rows' => Sim.orderLoop mode iS iA iR byT byC rest rows' mem' upd'

/-- handle_order_csv of simulator.py: mirror the request into the .erl
acknowledgment, ensure the ledger, locate the five required columns and
abort the reservation when any is missing, otherwise apply every line,
rewrite the ledger, persist newly learned NC-to-material entries into
the sidecar, and archive the request. -/
def Sim.handle_order_csv (fs : GrundnerFS) (mode : String) : Option GrundnerFS :=
  match fs.orderText with
  | none => some fs
  | some text =>
    let lines := splitNonblankLines text
    let inv0 := fs.inv.getD ⟨DEFAULT_INVENTORY_HEADER, []⟩
    let header := inv0.header
    let rows := inv0.rows
    match findColumn header "type_data", findColumn header "customer_id",
          findColumn header "stock", findColumn header "stock_available",
          findColumn header "reserved_stock" with
    | some iT, some iC, some iS, some iA, some iR =>
      let byT := buildByIdx (some iT) rows 0
      let byC := buildByIdx (some iC) rows 0
      match Sim.orderLoop mode iS iA iR byT byC lines rows fs.mem [] with
      | none => none
      | some (rows', mem', upd) =>
        let sidecar' :=
          if upd.isEmpty then fs.sidecar
          else loadNcMap (loadNcMap fs.sidecar ++ upd)
        some { fs with
                 erl := some text,
                 inv := some ⟨header, rows'⟩,
                 mem := mem',
                 sidecar := sidecar',
                 orderText := none,
                 archivedOrders := fs.archivedOrders ++ [text] }
    | _, _, _, _, _ => some { fs with erl := some text, inv := some inv0 }

/-! ## derive_row_from_request -/

/-- The stripped second semicolon field of a production-delete request
line, the token derive_row_from_request classifies. -/
def reqSecondToken (line : String) : String :=
  pyStrip ((((pySplit ';' line).map pyStrip)[1]?).getD "")

/-- derive_row_from_request of simulator.py: fields beyond job_no are
optional with documented defaults, a blank or zero-like token counts as
empty, and the token is classified by the id-mode: in type_data mode a
positive all-digit token is the type column and anything else the
material column; in any other mode (customer_id) the token is always
the material column and the type column stays empty. -/
def Sim.derive_row_from_request (line : String) (idModeLocal : String) : DerivedRow :=
  let parts := (pySplit ';' line).map pyStrip
  let job_no := pyStrip (parts[0]?.getD "")
  let token := pyStrip (parts[1]?.getD "")
  let qty := pyStrip (parts[2]?.getD "1")
  let machine := pyStrip (parts[3]?.getD "0")
  let rotation := pyStrip (parts[4]?.getD "0")
  let source := pyStrip (parts[5]?.getD "0")
  let resv := pyStrip (parts[6]?.getD "0")
  let tokEff :=
    if token = "" ∨ token = "0" ∨ token = "00" ∨ token = "000" ∨ token = "0000"
    then "" else token
  let isNum := pyIsdigit tokEff.data && decide (0 < digitsToNat tokEff.data)
  let type_col := if idModeLocal == "type_data" then (if isNum then tokEff else "") else ""
  let material_col :=
    if idModeLocal == "type_data" then (if isNum then "" else tokEff) else tokEff
  let qtyVal := match parseFloatTrunc qty.data with | some n => max 1 n | none => 1
  let machVal := (parseFloatTrunc machine.data).getD 0
  let rotVal := (parseFloatTrunc rotation.data).getD 0
  let srcVal := (parseFloatTrunc source.data).getD 0
  let resVal := (parseFloatTrunc resv.data).getD 0
  ⟨job_no, type_col, material_col, qtyVal, rotVal, machVal, srcVal, resVal⟩

/-- job_no.rsplit with a dot and limit one, first component: everything
before the last dot, or the whole string when it has no dot. -/
def rsplitDotFirst (s : String) : String :=
  let groups := splitChar '.' s.data
  if groups.length ≤ 1 then s
  else joinSep "." (groups.dropLast.map (fun g => (⟨g⟩ : String)))

/-- Maximal runs of digits, as re.findall of a digit-group pattern
returns them. -/
def digitRunsAux : Nat → List Char → List (List Char)
  | 0, _ => []
  | _ + 1, [] => []
  | fuel + 1, c :: rest =>
    if isDigitC c then (c :: rest.takeWhile isDigitC) :: digitRunsAux fuel (rest.dropWhile isDigitC)
    else digitRunsAux fuel rest

def digitRuns (cs : List Char) : List (List Char) := digitRunsAux cs.length cs

/-- derive_row_from_request of grundner_sim.py: same parsing, but it
takes no id-mode, always treats a positive all-digit token as the type
column, and when both columns come out empty it infers a type from the
largest digit run of the job number with its extension removed. -/
def GSim.derive_row_from_request (line : String) : DerivedRow :=
  let parts := (pySplit ';' line).map pyStrip
  let job_no := pyStrip (parts[0]?.getD "")
  let token := pyStrip (parts[1]?.getD "")
  let qty := pyStrip (parts[2]?.getD "1")
  let machine := pyStrip (parts[3]?.getD "0")
  let rotation := pyStrip (parts[4]?.getD "0")
  let source := pyStrip (parts[5]?.getD "0")
  let resv := pyStrip (parts[6]?.getD "0")
  let tokEff :=
    if token = "" ∨ token = "0" ∨ token = "00" ∨ token = "000" ∨ token = "0000"
    then "" else token
  let isNum := pyIsdigit tokEff.data && decide (0 < digitsToNat tokEff.data)
  let type_col0 := if isNum then tokEff else ""
  let material_col := if isNum then "" else tokEff
  let type_col :=
    if type_col0 = "" ∧ material_col = "" ∧ job_no ≠ "" then
      let nums := digitRuns (rsplitDotFirst job_no).data
      match nums with
      | [] => type_col0
      | n0 :: rest => natToStr ((rest.map digitsToNat).foldl Nat.max (digitsToNat n0))
    else type_col0
  let qtyVal := match parseFloatTrunc qty.data with | some n => max 1 n | none => 1
  let machVal := (parseFloatTrunc machine.data).getD 0
  let rotVal := (parseFloatTrunc rotation.data).getD 0
  let srcVal := (parseFloatTrunc source.data).getD 0
  let resVal := (parseFloatTrunc resv.data).getD 0
  ⟨job_no, type_col, material_col, qtyVal, rotVal, machVal, srcVal, resVal⟩

/-! ## NC-to-material resolution map -/

/-- NC-to-material entries contributed by one order-request text in
simulator.py: for each non-blank line, the normalized NC name mapped to
the stripped material field, skipping empty keys. -/
def Sim.orderEntriesOfText (text : String) : List (String × String) :=
  (splitNonblankLines text).filterMap (fun ln =>
    let p := parse_order_csv_line ln
    let k := normalizeNcKey p.1
    if k = "" then none else some (k, pyStrip p.2.1))

/-- The current-order source as a list of entries (absent file
contributes nothing). -/
def curEntries (entriesOf : String → List (String × String)) :
    Option String → List (String × String)
  | none => []
  | some text => entriesOf text

/-- build_nc_material_map of simulator.py: start from the persisted
sidecar, overlay the in-memory session map, then the current unconsumed
order request, then every archived order request oldest to newest; with
the last-assignment-wins dictionary model the merge is concatenation in
that order. -/
def Sim.build_nc_material_map (sidecar mem : List (String × String))
    (cur : Option String) (archs : List String) : List (String × String) :=
  loadNcMap sidecar ++ mem ++ curEntries Sim.orderEntriesOfText cur ++
    (archs.map Sim.orderEntriesOfText).flatten

/-- NC-to-material entries contributed by one order-request text in
grundner_sim.py: keys are only stripped and lowered, with no .nc suffix
normalization, and a line contributes when its NC field is non-empty. -/
def GSim.orderEntriesOfText (text : String) : List (String × String) :=
  (splitNonblankLines text).filterMap (fun ln =>
    let p := parse_order_csv_line ln
    if p.1 = "" then none else some (pyLower (pyStrip p.1), pyStrip p.2.1))

/-- build_nc_material_map of grundner_sim.py: a copy of the in-memory
session map, then the current order request, then the archives — the
persisted sidecar is never consulted. -/
def GSim.build_nc_material_map (mem : List (String × String))
    (cur : Option String) (archs : List String) : List (String × String) :=
  mem ++ curEntries GSim.orderEntriesOfText cur ++
    (archs.map GSim.orderEntriesOfText).flatten

/-! ## Production-delete resolution and answer (shared shape) -/

/-- The per-line inventory adjustment of handle_production_delete: when
a row index was found and the lookup key is non-empty, reserved_stock
is decremented by the quantity clamped at zero and stock_available
recomputed; the row is written back (reserved_stock first, then
stock_available) only when one of the two values changed, which also
sets the dirty flag. -/
def prodDelStep (iS iA iR : Nat) (qty : Int) (index : Option Nat) (lk : String)
    (rows : List (List String)) (dirty : Bool) :
    Option (List (List String) × Bool) :=
  match index with
  | none => some (rows, dirty)
  | some k =>
    if lk = "" then some (rows, dirty)
    else
      match rows[k]? with
      | none => none
      | some row =>
        let stockVal := coerceInt row[iS]?
        let resvdVal := coerceInt row[iR]?
        let availVal := coerceInt row[iA]?
        let newResvd := max 0 (resvdVal - qty)
        let newAvail := max 0 (stockVal - newResvd)
        if newResvd = resvdVal ∧ newAvail = availVal then some (rows, dirty)
        else
          match listSet? row iR (intToStr newResvd) with
          | none => none
          | some r1 =>
            match listSet? r1 iA (intToStr newAvail) with
            | none => none
            | some r2 => some (rows.set k r2, true)

/-- The resolution loop of handle_production_delete, parametrized by the
job-number normalizer (simulator.py uses _normalize_nc_key, the
grundner_sim.py copy plain strip and lower): per entry, resolve the
lookup key from the derived token or the NC map, record it back into the
resolved list for the active id-mode, and adjust the matched row. -/
def prodDelLoopWith (norm : String → String) (mode : String) (iS iA iR : Nat)
    (byT byC : List (String × Nat)) (mmap : List (String × String)) :
    List DerivedRow → Nat → List (List String) → List String → List String → Bool →
      Option (List (List String) × List String × List String × Bool)
  | [], _, rows, resT, resM, dirty => some (rows, resT, resM, dirty)
  | e :: es, idx, rows, resT, resM, dirty =>
    let qty := max 1 e.qty
    let inferred := pyStrip ((dget mmap (norm e.job_no)).getD "")
    let tcol := pyStrip e.type_col
    let mcol := pyStrip e.material_col
    let lk :=
      if mode == "type_data" then (if tcol = "" then inferred else tcol)
      else (if mcol = "" then inferred else mcol)
    let index := if mode == "type_data" then dget byT lk else dget byC lk
    let resT' := if mode == "type_data" && !(lk == "") then resT.set idx lk else resT
    let resM' := if !(mode == "type_data") && !(lk == "") then resM.set idx lk else resM
    match prodDelStep iS iA iR qty index lk rows dirty with
    | none => none
    | some (rows', dirty') =>
      prodDelLoopWith norm mode iS iA iR byT byC mmap es (idx + 1) rows' resT' resM' dirty'

/-- One answer row per request line, carrying a one-based sequence
number that wraps from 255 back to 1; the row body after the sequence
is built by the copy-specific field maker from the entry and its final
resolved type and material tokens. -/
def answerFieldsWith (mk : DerivedRow → String → String → List String) :
    List DerivedRow → List String → List String → Nat → List (List String)
  | [], _, _, _ => []
  | e :: es, rts, rms, lineNo =>
    (natToStr lineNo :: mk e (rts.headD "") (rms.headD "")) ::
      answerFieldsWith mk es rts.tail rms.tail (if lineNo < 255 then lineNo + 1 else 1)

/-- Answer row body of simulator.py: the resolved material token (the
material, else the type, else empty, stripped) written into both the
third and fourth output positions, then quantity, rotation, machine,
source, reservation. -/
def Sim.answerRowMk (e : DerivedRow) (rt rm : String) : List String :=
  let matTok := pyStrip (if rm = "" then (if rt = "" then "" else rt) else rm)
  [e.job_no, matTok, matTok, intToStr e.qty, intToStr e.rot, intToStr e.mach,
   intToStr e.src, intToStr e.res]

/-- Answer row body of grundner_sim.py: the resolved type token in the
third position and the resolved material token in the fourth. -/
def GSim.answerRowMk (e : DerivedRow) (rt rm : String) : List String :=
  [e.job_no, pyStrip rt, pyStrip rm, intToStr e.qty, intToStr e.rot, intToStr e.mach,
   intToStr e.src, intToStr e.res]

/-- Serialization of the answer rows: semicolon-joined fields, CRLF
between rows and a trailing CRLF, or a lone CRLF when there are no
rows. -/
def outTextOf (flds : List (List String)) : String :=
  let rows := flds.map (joinSep ";")
  if rows.isEmpty then "\r\n" else joinSep "\r\n" rows ++ "\r\n"

/-- The inventory-resolution stage of handle_production_delete (both
copies): when the header and rows are non-empty, the three numeric
columns exist and the id-mode key column exists, run the resolution
loop, otherwise leave rows and resolved tokens untouched. -/
def prodDelResolveWith (norm : String → String)
    (mmap : List (String × Nat) → List (String × Nat) → List (String × String))
    (mode : String) (header : List String) (rows : List (List String))
    (entries : List DerivedRow) (resT0 resM0 : List String) :
    Option (List (List String) × List String × List String × Bool) :=
  let iT? := findColumn header "type_data"
  let iC? := findColumn header "customer_id"
  match findColumn header "stock", findColumn header "stock_available",
        findColumn header "reserved_stock" with
  | some iS, some iA, some iR =>
    if !header.isEmpty && !rows.isEmpty &&
         ((mode == "type_data" && iT?.isSome) || (mode == "customer_id" && iC?.isSome)) then
      let byT := buildByIdx iT? rows 0
      let byC := buildByIdx iC? rows 0
      prodDelLoopWith norm mode iS iA iR byT byC (mmap byT byC) entries 0 rows resT0 resM0 false
    else some (rows, resT0, resM0, false)
  | _, _, _ => some (rows, resT0, resM0, false)

/-- Compute core of handle_production_delete in simulator.py, from the
request text to the ledger after adjustment and the answer fields. -/
def Sim.prodDelCore (fs : GrundnerFS) (mode : String) (text : String) :
    Option (Ledger × List (List String)) :=
  let lines := splitNonblankLines text
  let entries := lines.map (fun ln => Sim.derive_row_from_request ln mode)
  let resT0 := entries.map (fun e => e.type_col)
  let resM0 := entries.map (fun e => e.material_col)
  let inv0 := fs.inv.getD ⟨DEFAULT_INVENTORY_HEADER, []⟩
  match prodDelResolveWith normalizeNcKey
      (fun _ _ => Sim.build_nc_material_map fs.sidecar fs.mem fs.orderText fs.archivedOrders)
      mode inv0.header inv0.rows entries resT0 resM0 with
  | none => none
  | some (rows', resT, resM, _) =>
    some (⟨inv0.header, rows'⟩, answerFieldsWith Sim.answerRowMk entries resT resM 1)

/-- handle_production_delete of simulator.py: read the request, derive
and resolve each line, adjust the inventory, write the answer file and
consume the request. -/
def Sim.handle_production_delete (fs : GrundnerFS) (mode : String) : Option GrundnerFS :=
  match fs.prodDelReq with
  | none => some fs
  | some text =>
    match Sim.prodDelCore fs mode text with
    | none => none
    | some (inv', flds) =>
      some { fs with inv := some inv', prodDelAns := some (outTextOf flds),
                     prodDelReq := none }

/-- The answer fields the simulator.py production-delete handler emits
for the pending request, when it runs to completion. -/
def Sim.prodDelAnswerFields (fs : GrundnerFS) (mode : String) :
    Option (List (List String)) :=
  match fs.prodDelReq with
  | none => none
  | some text => (Sim.prodDelCore fs mode text).map (fun r => r.2)

/-- Compute core of handle_production_delete in grundner_sim.py. -/
def GSim.prodDelCore (fs : GrundnerFS) (mode : String) (text : String) :
    Option (Ledger × List (List String)) :=
  let lines := splitNonblankLines text
  let entries := lines.map GSim.derive_row_from_request
  let resT0 := entries.map (fun e => e.type_col)
  let resM0 := entries.map (fun e => e.material_col)
  let inv0 := fs.inv.getD ⟨DEFAULT_INVENTORY_HEADER, []⟩
  match prodDelResolveWith (fun s => pyLower (pyStrip s))
      (fun _ _ => GSim.build_nc_material_map fs.mem fs.orderText fs.archivedOrders)
      mode inv0.header inv0.rows entries resT0 resM0 with
  | none => none
  | some (rows', resT, resM, _) =>
    some (⟨inv0.header, rows'⟩, answerFieldsWith GSim.answerRowMk entries resT resM 1)

/-- handle_production_delete of grundner_sim.py. -/
def GSim.handle_production_delete (fs : GrundnerFS) (mode : String) : Option GrundnerFS :=
  match fs.prodDelReq with
  | none => some fs
  | some text =>
    match GSim.prodDelCore fs mode text with
    | none => none
    | some (inv', flds) =>
      some { fs with inv := some inv', prodDelAns := some (outTextOf flds),
                     prodDelReq := none }

/-- The answer fields the grundner_sim.py production-delete handler
emits for the pending request. -/
def GSim.prodDelAnswerFields (fs : GrundnerFS) (mode : String) :
    Option (List (List String)) :=
  match fs.prodDelReq with
  | none => none
  | some text => (GSim.prodDelCore fs mode text).map (fun r => r.2)

/-! ## Stock-query handler -/

/-- The filesystem slice the stock-query handler touches: the request
file identified by its modification time (its content is ignored), the
module-level duplicate-suppression marker _last_stock_request_mtime, the
ledger file as raw bytes (none covers both an absent ledger and one that
never becomes readable within the bounded wait), the stock.csv reply,
and an instrumentation counter of performed copies. -/
structure StockFS where
  req : Option Nat
  marker : Option Nat
  ledger : Option String
  reply : Option String
  copies : Nat
deriving DecidableEq, Repr

/-- copy_to_stock_reply: when the ledger file is missing (or never
readable), return without creating stock.csv; otherwise replace the
reply with a byte copy of the ledger. -/
def copy_to_stock_reply (s : StockFS) : StockFS :=
  match s.ledger with
  | none => s
  | some bytes => { s with reply := some bytes, copies := s.copies + 1 }

/-- handle_stock_request: absent request clears the marker; a request
whose modification time equals the marker is skipped; otherwise copy the
ledger to the reply, then delete the request (clearing the marker), or
on delete failure remember the modification time. -/
def handle_stock_request (unlinkOk : Bool) (s : StockFS) : StockFS :=
  match s.req with
  | none => { s with marker := none }
  | some mtime =>
    if s.marker = some mtime then s
    else
      let s1 := copy_to_stock_reply s
      if unlinkOk then { s1 with req := none, marker := none }
      else { s1 with marker := some mtime }

/-! ## The ledger invariant of the specification -/

/-- One row satisfies the inventory invariant at the given column
positions when, read through the tolerant coercion, stock_available
equals max 0 (stock - reserved_stock) and reserved_stock is
non-negative. -/
def rowInvariantB (iS iA iR : Nat) (row : List String) : Bool :=
  (coerceInt row[iA]? == max 0 (coerceInt row[iS]? - coerceInt row[iR]?)) &&
    decide (0 ≤ coerceInt row[iR]?)

/-- Whether every row of a ledger satisfies the inventory invariant,
with the three managed columns located by name (none when a managed
column is absent). -/
def ledgerInvariantB (inv : Ledger) : Option Bool :=
  match findColumn inv.header "stock", findColumn inv.header "stock_available",
        findColumn inv.header "reserved_stock" with
  | some iS, some iA, some iR => some (inv.rows.all (rowInvariantB iS iA iR))
  | _, _, _ => none

/-- Are the third and fourth (one-based) positions equal in every
answer row. -/
def fieldsEq34 (rows : List (List String)) : Bool :=
  rows.all (fun r => r[2]? == r[3]?)

/-- A five-column inventory used by concrete check instances. -/
def wHdr : List String :=
  ["type_data", "customer_id", "stock", "stock_available", "reserved_stock"]

/-- Folder state for the C1 counterexample: the first inventory row
violates the invariant (stock_available 99 against stock 10 and
reserved_stock 0) and the order reserves from the second row only. -/
def c1fs : GrundnerFS :=
  { orderText := some "j1;7;1", erl := none,
    inv := some ⟨wHdr, [["5", "", "10", "99", "0"], ["7", "", "10", "10", "0"]]⟩,
    sidecar := [], mem := [], archivedOrders := [],
    prodDelReq := none, prodDelAns := none }

/-- Folder state for the order-handler half of the C1 witness. -/
def c1wfs : GrundnerFS :=
  { orderText := some "j1;5;1", erl := none,
    inv := some ⟨wHdr, [["5", "x", "10", "10", "0"]]⟩,
    sidecar := [], mem := [], archivedOrders := [],
    prodDelReq := none, prodDelAns := none }

/-- Folder state for the production-delete half of the C1 witness. -/
def c1wfs2 : GrundnerFS :=
  { orderText := none, erl := none,
    inv := some ⟨wHdr, [["5", "x", "10", "9", "1"]]⟩,
    sidecar := [], mem := [], archivedOrders := [],
    prodDelReq := some "j1;5;1", prodDelAns := none }

/-- Folder state for the C3 counterexample: a production-delete request
whose token is numeric, against an empty inventory. -/
def c3fs : GrundnerFS :=
  { orderText := none, erl := none, inv := none,
    sidecar := [], mem := [], archivedOrders := [],
    prodDelReq := some "J1;5;2", prodDelAns := none }

/-- Folder state for the C3 and C4 witnesses. -/
def c4fs : GrundnerFS :=
  { orderText := none, erl := none,
    inv := some ⟨wHdr, [["5", "", "10", "10", "0"]]⟩,
    sidecar := [], mem := [], archivedOrders := [],
    prodDelReq := some "J1;5;2\r\nJ2;7;1\r\n", prodDelAns := none }

/-- Folder state for the C6 witness: the ledger header lacks the
stock_available column. -/
def c6fs : GrundnerFS :=
  { orderText := some "j1;5;2", erl := none,
    inv := some ⟨["type_data", "customer_id", "stock", "reserved_stock"],
                 [["5", "", "10", "0"]]⟩,
    sidecar := [], mem := [], archivedOrders := [],
    prodDelReq := none, prodDelAns := none }

/-- Folder state for the C7 witness: extra columns and a row with
trailing extra cells. -/
def c7fs : GrundnerFS :=
  { orderText := some "j1;5;2", erl := none,
    inv := some ⟨["note", "type_data", "customer_id", "stock", "stock_available",
                  "reserved_stock", "extra"],
                 [["keep", "5", "c9", "10", "10", "0", "tail"],
                  ["keep2", "8", "", "3", "3", "0", "tail2"]]⟩,
    sidecar := [], mem := [], archivedOrders := [],
    prodDelReq := none, prodDelAns := none }

/-- The identifier token a row contributes to the lookup index: the
stripped key cell, empty when the cell is missing or blank. -/
def keyTok (iKey : Nat) (row : List String) : String :=
  pyStrip ((row[iKey]?).getD "")

/-- The identifier token of the row at a position. -/
def tokOfRowAt (iKey : Nat) (rows : List (List String)) (m : Nat) : String :=
  keyTok iKey ((rows[m]?).getD [])

/-! ## Decimal round-trip: coerceInt after intToStr -/

theorem digitsToNat_append (cs : List Char) (c : Char) :
    digitsToNat (cs ++ [c]) = 10 * digitsToNat cs + (c.toNat - 48) := by
  unfold digitsToNat
  rw [List.foldl_append]
  rfl

theorem digitChar_toNat (d : Nat) (h : d < 10) : (digitChar d).toNat = 48 + d := by
  interval_cases d <;> decide

theorem isDigitC_digitChar (d : Nat) (h : d < 10) : isDigitC (digitChar d) = true := by
  interval_cases d <;> decide

theorem natCharsAux_spec : ∀ fuel n, n < fuel →
    digitsToNat (natCharsAux fuel n) = n ∧ natCharsAux fuel n ≠ [] ∧
      ∀ c ∈ natCharsAux fuel n, isDigitC c = true := by
  intro fuel
  induction fuel with
  | zero => intro n h; omega
  | succ fuel ih =>
    intro n h
    by_cases h10 : n < 10
    · refine ⟨?_, by simp [natCharsAux, h10], ?_⟩
      · simp only [natCharsAux, if_pos h10]
        show digitsToNat [digitChar n] = n
        have : digitsToNat [digitChar n] = 10 * 0 + ((digitChar n).toNat - 48) := rfl
        rw [this, digitChar_toNat n h10]
        omega
      · intro c hc
        simp only [natCharsAux, if_pos h10, List.mem_singleton] at hc
        subst hc
        exact isDigitC_digitChar n h10
    · have hpos : 0 < n := by omega
      have hlt : n / 10 < n := Nat.div_lt_self hpos (by omega)
      have hdiv : n / 10 < fuel := by omega
      obtain ⟨h1, h2, h3⟩ := ih (n / 10) hdiv
      simp only [natCharsAux, if_neg h10]
      refine ⟨?_, by simp, ?_⟩
      · rw [digitsToNat_append, h1, digitChar_toNat (n % 10) (Nat.mod_lt n (by omega))]
        omega
      · intro c hc
        rcases List.mem_append.mp hc with hc | hc
        · exact h3 c hc
        · simp only [List.mem_singleton] at hc
          subst hc
          exact isDigitC_digitChar (n % 10) (Nat.mod_lt n (by omega))

theorem natChars_spec (n : Nat) :
    digitsToNat (natChars n) = n ∧ natChars n ≠ [] ∧
      ∀ c ∈ natChars n, isDigitC c = true :=
  natCharsAux_spec (n + 1) n (by omega)

theorem isDigitC_cases (c : Char) (h : isDigitC c = true) :
    c = '0' ∨ c = '1' ∨ c = '2' ∨ c = '3' ∨ c = '4' ∨
      c = '5' ∨ c = '6' ∨ c = '7' ∨ c = '8' ∨ c = '9' := by
  simp only [isDigitC, Bool.or_eq_true, beq_iff_eq] at h
  tauto

theorem digit_char_facts (c : Char) (h : isDigitC c = true) :
    isSpaceChar c = false ∧ charLower c = c ∧ c ≠ '-' ∧ c ≠ '+' ∧ c ≠ 'n' := by
  rcases isDigitC_cases c h with rfl | rfl | rfl | rfl | rfl | rfl | rfl | rfl | rfl | rfl <;>
    exact ⟨by decide, by decide, by decide, by decide, by decide⟩

theorem dropWhile_eq_self_of_false {p : Char → Bool} {cs : List Char}
    (h : ∀ c ∈ cs, p c = false) : cs.dropWhile p = cs := by
  cases cs with
  | nil => rfl
  | cons c rest =>
    rw [List.dropWhile_cons, if_neg (by simp [h c (by simp)])]

theorem stripChars_eq_self {cs : List Char}
    (h : ∀ c ∈ cs, isSpaceChar c = false) : stripChars cs = cs := by
  unfold stripChars
  rw [dropWhile_eq_self_of_false h,
      dropWhile_eq_self_of_false (fun c hc => h c (List.mem_reverse.mp hc)),
      List.reverse_reverse]

theorem lowerChars_eq_self {cs : List Char}
    (h : ∀ c ∈ cs, charLower c = c) : lowerChars cs = cs := by
  unfold lowerChars
  induction cs with
  | nil => rfl
  | cons c rest ih =>
    simp only [List.map_cons, h c (by simp), List.cons.injEq, true_and]
    exact ih (fun c hc => h c (by simp [hc]))

theorem takeWhile_eq_self_of_true {p : Char → Bool} {cs : List Char}
    (h : ∀ c ∈ cs, p c = true) : cs.takeWhile p = cs := by
  induction cs with
  | nil => rfl
  | cons c rest ih =>
    rw [List.takeWhile_cons, if_pos (h c (by simp)),
        ih (fun c hc => h c (by simp [hc]))]

theorem dropWhile_eq_nil_of_true {p : Char → Bool} {cs : List Char}
    (h : ∀ c ∈ cs, p c = true) : cs.dropWhile p = [] := by
  induction cs with
  | nil => rfl
  | cons c rest ih =>
    rw [List.dropWhile_cons, if_pos (h c (by simp))]
    exact ih (fun c hc => h c (by simp [hc]))

theorem coerceInt_natToStr (n : Nat) : coerceInt (some (natToStr n)) = (n : Int) := by
  obtain ⟨hval, hne, hdig⟩ := natChars_spec n
  have hdata : (natToStr n).data = natChars n := rfl
  have hstrip : stripChars (natToStr n).data = natChars n := by
    rw [hdata]
    exact stripChars_eq_self (fun c hc => (digit_char_facts c (hdig c hc)).1)
  have hlower : lowerChars (natChars n) = natChars n :=
    lowerChars_eq_self (fun c hc => (digit_char_facts c (hdig c hc)).2.1)
  obtain ⟨c, rest, hcons⟩ : ∃ c rest, natChars n = c :: rest := by
    cases hcs : natChars n with
    | nil => exact absurd hcs hne
    | cons c rest => exact ⟨c, rest, rfl⟩
  have hcdig : isDigitC c = true := hdig c (by rw [hcons]; simp)
  have hfacts := digit_char_facts c hcdig
  have hsign : splitSign (natChars n) = (false, natChars n) := by
    rw [hcons]
    simp only [splitSign]
    rw [if_neg (by simp [hfacts.2.2.1]), if_neg (by simp [hfacts.2.2.2.1])]
  have hparse : parseFloatTrunc (natChars n) = some (n : Int) := by
    unfold parseFloatTrunc
    rw [hsign]
    simp only
    rw [takeWhile_eq_self_of_true hdig, dropWhile_eq_nil_of_true hdig]
    simp only [List.isEmpty_eq_true]
    rw [if_pos (by simp [hcons])]
    simp [hval]
  show coerceInt (some (natToStr n)) = (n : Int)
  unfold coerceInt
  simp only [hstrip]
  rw [if_neg (by rw [hcons]; simp)]
  rw [if_neg ?hna]
  case hna =>
    rw [hlower]
    rintro (habs | habs) <;>
      · rw [hcons] at habs
        have : c = 'n' := by
          have := congrArg (fun l => l.head?) habs
          simpa using this
        exact hfacts.2.2.2.2 this
  rw [hparse]

theorem coerceInt_intToStr (n : Int) (h : 0 ≤ n) :
    coerceInt (some (intToStr n)) = n := by
  unfold intToStr
  rw [if_neg (by omega)]
  have h2 := coerceInt_natToStr n.toNat
  rw [show ((⟨natChars n.toNat⟩ : String)) = natToStr n.toNat from rfl]
  rw [h2, Int.toNat_of_nonneg h]

/-! ## Column lookup facts -/

theorem findColumnAux_sound :
    ∀ (header : List String) (i k : Nat) (lname : String),
      findColumnAux lname header i = some k →
      ∃ d cell, k = i + d ∧ header[d]? = some cell ∧ normalizeHeader cell = lname := by
  intro header
  induction header with
  | nil => intro i k lname h; simp [findColumnAux] at h
  | cons c rest ih =>
    intro i k lname h
    simp only [findColumnAux] at h
    by_cases hc : normalizeHeader c = lname
    · rw [if_pos hc] at h
      have hik : i = k := Option.some.inj h
      exact ⟨0, c, by omega, by simp, hc⟩
    · rw [if_neg hc] at h
      obtain ⟨d, cell, hk, hget, hnorm⟩ := ih (i + 1) k lname h
      exact ⟨d + 1, cell, by omega, by simpa using hget, hnorm⟩

theorem findColumn_sound {header : List String} {name : String} {k : Nat}
    (h : findColumn header name = some k) :
    ∃ cell, header[k]? = some cell ∧ normalizeHeader cell = pyLower name := by
  obtain ⟨d, cell, hk, hget, hnorm⟩ := findColumnAux_sound header 0 k (pyLower name) h
  exact ⟨cell, by rw [hk]; simpa using hget, hnorm⟩

theorem findColumn_inj {header : List String} {n1 n2 : String} {i : Nat}
    (h1 : findColumn header n1 = some i) (h2 : findColumn header n2 = some i) :
    pyLower n1 = pyLower n2 := by
  obtain ⟨c1, hg1, hn1⟩ := findColumn_sound h1
  obtain ⟨c2, hg2, hn2⟩ := findColumn_sound h2
  rw [hg1] at hg2
  rw [← hn1, ← hn2, Option.some.inj hg2]

theorem listSet?_eq_some {α : Type} {l : List α} {i : Nat} {a : α} {l' : List α}
    (h : listSet? l i a = some l') : i < l.length ∧ l' = l.set i a := by
  unfold listSet? at h
  split at h
  · exact ⟨by assumption, (Option.some.inj h).symm⟩
  · exact absurd h (by simp)

theorem rowInvariantB_updated {iS iA iR : Nat} {row r1 r2 : List String}
    (hSA : iS ≠ iA) (hSR : iS ≠ iR) (hAR : iA ≠ iR)
    {availN resvdN : Int}
    (havail : availN = max 0 (coerceInt row[iS]? - resvdN))
    (hresvd : 0 ≤ resvdN)
    (h1 : listSet? row iA (intToStr availN) = some r1)
    (h2 : listSet? r1 iR (intToStr resvdN) = some r2) :
    rowInvariantB iS iA iR r2 = true := by
  obtain ⟨hlt1, rfl⟩ := listSet?_eq_some h1
  obtain ⟨hlt2, rfl⟩ := listSet?_eq_some h2
  have hgA : ((row.set iA (intToStr availN)).set iR (intToStr resvdN))[iA]? =
      some (intToStr availN) := by
    rw [List.getElem?_set_ne (Ne.symm hAR), List.getElem?_set_self hlt1]
  have hgR : ((row.set iA (intToStr availN)).set iR (intToStr resvdN))[iR]? =
      some (intToStr resvdN) := List.getElem?_set_self hlt2
  have hgS : ((row.set iA (intToStr availN)).set iR (intToStr resvdN))[iS]? =
      row[iS]? := by
    rw [List.getElem?_set_ne (Ne.symm hSR), List.getElem?_set_ne (Ne.symm hSA)]
  have havail0 : 0 ≤ availN := by omega
  unfold rowInvariantB
  rw [hgA, hgR, hgS, coerceInt_intToStr availN havail0, coerceInt_intToStr resvdN hresvd]
  simp [havail, hresvd]

/-- The inverse direction used for rows written the other way around
(production delete writes reserved_stock first, then stock_available). -/
theorem rowInvariantB_updatedRA {iS iA iR : Nat} {row r1 r2 : List String}
    (hSA : iS ≠ iA) (hSR : iS ≠ iR) (hAR : iA ≠ iR)
    {availN resvdN : Int}
    (havail : availN = max 0 (coerceInt row[iS]? - resvdN))
    (hresvd : 0 ≤ resvdN)
    (h1 : listSet? row iR (intToStr resvdN) = some r1)
    (h2 : listSet? r1 iA (intToStr availN) = some r2) :
    rowInvariantB iS iA iR r2 = true := by
  obtain ⟨hlt1, rfl⟩ := listSet?_eq_some h1
  obtain ⟨hlt2, rfl⟩ := listSet?_eq_some h2
  have hgR : ((row.set iR (intToStr resvdN)).set iA (intToStr availN))[iR]? =
      some (intToStr resvdN) := by
    rw [List.getElem?_set_ne hAR, List.getElem?_set_self hlt1]
  have hgA : ((row.set iR (intToStr resvdN)).set iA (intToStr availN))[iA]? =
      some (intToStr availN) := List.getElem?_set_self hlt2
  have hgS : ((row.set iR (intToStr resvdN)).set iA (intToStr availN))[iS]? =
      row[iS]? := by
    rw [List.getElem?_set_ne (Ne.symm hSA), List.getElem?_set_ne (Ne.symm hSR)]
  have havail0 : 0 ≤ availN := by omega
  unfold rowInvariantB
  rw [hgA, hgR, hgS, coerceInt_intToStr availN havail0, coerceInt_intToStr resvdN hresvd]
  simp [havail, hresvd]

theorem invariantAll_set {iS iA iR : Nat} {rows : List (List String)} {k : Nat}
    {r2 : List String}
    (hall : rows.all (rowInvariantB iS iA iR) = true)
    (hr2 : rowInvariantB iS iA iR r2 = true) :
    (rows.set k r2).all (rowInvariantB iS iA iR) = true := by
  rw [List.all_eq_true] at hall ⊢
  intro row hrow
  rcases List.mem_or_eq_of_mem_set hrow with hrow | rfl
  · exact hall row hrow
  · exact hr2

theorem Sim.applyOrderUpdate_invariant {iS iA iR : Nat} {qty : Int} {k : Nat}
    {rows rows' : List (List String)}
    (hSA : iS ≠ iA) (hSR : iS ≠ iR) (hAR : iA ≠ iR)
    (h : Sim.applyOrderUpdate iS iA iR qty k rows = some rows')
    (hall : rows.all (rowInvariantB iS iA iR) = true) :
    rows'.all (rowInvariantB iS iA iR) = true := by
  simp only [Sim.applyOrderUpdate] at h
  split at h
  · exact absurd h (by simp)
  · rename_i row hget
    split at h
    · exact absurd h (by simp)
    · rename_i r1 h1
      split at h
      · exact absurd h (by simp)
      · rename_i r2 h2
        obtain rfl : rows' = rows.set k r2 := (Option.some.inj h).symm
        exact invariantAll_set hall
          (rowInvariantB_updated hSA hSR hAR rfl (by positivity) h1 h2)

theorem Sim.orderLoop_invariant {mode : String} {iS iA iR : Nat}
    {byT byC : List (String × Nat)}
    (hSA : iS ≠ iA) (hSR : iS ≠ iR) (hAR : iA ≠ iR) :
    ∀ (lines : List String) (rows : List (List String))
      (mem upd : List (String × String))
      (rows' : List (List String)) (mem' upd' : List (String × String)),
      Sim.orderLoop mode iS iA iR byT byC lines rows mem upd = some (rows', mem', upd') →
      rows.all (rowInvariantB iS iA iR) = true →
      rows'.all (rowInvariantB iS iA iR) = true := by
  intro lines
  induction lines with
  | nil =>
    intro rows mem upd rows' mem' upd' h hall
    simp only [Sim.orderLoop, Option.some.injEq, Prod.mk.injEq] at h
    exact h.1 ▸ hall
  | cons ln rest ih =>
    intro rows mem upd rows' mem' upd' h hall
    simp only [Sim.orderLoop] at h
    split at h
    · exact ih _ _ _ _ _ _ h hall
    · rename_i k hidx
      split at h
      · exact absurd h (by simp)
      · rename_i rows1 happ
        exact ih _ _ _ _ _ _ h
          (Sim.applyOrderUpdate_invariant hSA hSR hAR happ hall)

theorem prodDelStep_invariant {iS iA iR : Nat} {qty : Int} {index : Option Nat}
    {lk : String} {rows : List (List String)} {dirty : Bool}
    {out : List (List String) × Bool}
    (hSA : iS ≠ iA) (hSR : iS ≠ iR) (hAR : iA ≠ iR)
    (h : prodDelStep iS iA iR qty index lk rows dirty = some out)
    (hall : rows.all (rowInvariantB iS iA iR) = true) :
    out.1.all (rowInvariantB iS iA iR) = true := by
  simp only [prodDelStep] at h
  split at h
  · obtain rfl := Option.some.inj h; exact hall
  · split at h
    · obtain rfl := Option.some.inj h; exact hall
    · split at h
      · exact absurd h (by simp)
      · rename_i k hlk row hget
        split at h
        · obtain rfl := Option.some.inj h; exact hall
        · split at h
          · exact absurd h (by simp)
          · rename_i r1 h1
            split at h
            · exact absurd h (by simp)
            · rename_i r2 h2
              obtain rfl := Option.some.inj h
              exact invariantAll_set hall
                (rowInvariantB_updatedRA hSA hSR hAR rfl (by positivity) h1 h2)

theorem prodDelLoopWith_invariant {norm : String → String} {mode : String}
    {iS iA iR : Nat} {byT byC : List (String × Nat)} {mmap : List (String × String)}
    (hSA : iS ≠ iA) (hSR : iS ≠ iR) (hAR : iA ≠ iR) :
    ∀ (entries : List DerivedRow) (idx : Nat) (rows : List (List String))
      (resT resM : List String) (dirty : Bool)
      (out : List (List String) × List String × List String × Bool),
      prodDelLoopWith norm mode iS iA iR byT byC mmap entries idx rows resT resM dirty =
        some out →
      rows.all (rowInvariantB iS iA iR) = true →
      out.1.all (rowInvariantB iS iA iR) = true := by
  intro entries
  induction entries with
  | nil =>
    intro idx rows resT resM dirty out h hall
    simp only [prodDelLoopWith, Option.some.injEq] at h
    rw [← h]
    exact hall
  | cons e es ih =>
    intro idx rows resT resM dirty out h hall
    simp only [prodDelLoopWith] at h
    split at h
    · exact absurd h (by simp)
    · rename_i res hstep
      exact ih _ _ _ _ _ _ h
        (by
          have := prodDelStep_invariant hSA hSR hAR hstep hall
          exact this)

theorem managedColsDistinct {hdr : List String} {iS iA iR : Nat}
    (hS : findColumn hdr "stock" = some iS)
    (hA : findColumn hdr "stock_available" = some iA)
    (hR : findColumn hdr "reserved_stock" = some iR) :
    iS ≠ iA ∧ iS ≠ iR ∧ iA ≠ iR := by
  refine ⟨fun he => ?_, fun he => ?_, fun he => ?_⟩
  · exact absurd (findColumn_inj (he ▸ hS) hA) (by decide)
  · exact absurd (findColumn_inj (he ▸ hS) hR) (by decide)
  · exact absurd (findColumn_inj (he ▸ hA) hR) (by decide)

theorem Sim.handle_order_csv_invariant
    {fs : GrundnerFS} {mode : String} {fs' : GrundnerFS}
    {hdr : List String} {rows rows' : List (List String)} {iS iA iR : Nat}
    (hinv : fs.inv = some ⟨hdr, rows⟩)
    (h : Sim.handle_order_csv fs mode = some fs')
    (hinv' : fs'.inv = some ⟨hdr, rows'⟩)
    (hS : findColumn hdr "stock" = some iS)
    (hA : findColumn hdr "stock_available" = some iA)
    (hR : findColumn hdr "reserved_stock" = some iR)
    (hall : rows.all (rowInvariantB iS iA iR) = true) :
    rows'.all (rowInvariantB iS iA iR) = true := by
  obtain ⟨hSA, hSR, hAR⟩ := managedColsDistinct hS hA hR
  simp only [Sim.handle_order_csv, hinv, Option.getD_some] at h
  split at h
  · obtain rfl := Option.some.inj h
    rw [hinv] at hinv'
    obtain rfl : rows = rows' := congrArg Ledger.rows (Option.some.inj hinv')
    exact hall
  · rename_i text htext
    split at h
    · rename_i iT' iC' iS' iA' iR' hT' hC' hS' hA' hR'
      rw [hS'] at hS
      rw [hA'] at hA
      rw [hR'] at hR
      obtain rfl := Option.some.inj hS
      obtain rfl := Option.some.inj hA
      obtain rfl := Option.some.inj hR
      split at h
      · exact absurd h (by simp)
      · rename_i rows1 mem1 upd1 hloop
        obtain rfl : fs' = _ := (Option.some.inj h).symm
        simp only at hinv'
        obtain hr : rows' = rows1 :=
          (congrArg Ledger.rows (Option.some.inj hinv')).symm
        rw [hr]
        exact Sim.orderLoop_invariant hSA hSR hAR _ _ _ _ _ _ _ hloop hall
    · obtain rfl : fs' = _ := (Option.some.inj h).symm
      simp only at hinv'
      obtain hr : rows' = rows :=
        (congrArg Ledger.rows (Option.some.inj hinv')).symm
      rw [hr]
      exact hall

theorem prodDelResolveWith_invariant {norm : String → String}
    {mmapf : List (String × Nat) → List (String × Nat) → List (String × String)}
    {mode : String} {hdr : List String} {rows : List (List String)}
    {entries : List DerivedRow} {resT0 resM0 : List String}
    {out : List (List String) × List String × List String × Bool}
    {iS iA iR : Nat}
    (hS : findColumn hdr "stock" = some iS)
    (hA : findColumn hdr "stock_available" = some iA)
    (hR : findColumn hdr "reserved_stock" = some iR)
    (h : prodDelResolveWith norm mmapf mode hdr rows entries resT0 resM0 = some out)
    (hall : rows.all (rowInvariantB iS iA iR) = true) :
    out.1.all (rowInvariantB iS iA iR) = true := by
  obtain ⟨hSA, hSR, hAR⟩ := managedColsDistinct hS hA hR
  simp only [prodDelResolveWith, hS, hA, hR] at h
  split at h
  · exact prodDelLoopWith_invariant hSA hSR hAR _ _ _ _ _ _ _ h hall
  · obtain rfl : out = _ := (Option.some.inj h).symm
    exact hall

theorem Sim.handle_production_delete_invariant
    {fs : GrundnerFS} {mode : String} {fs' : GrundnerFS}
    {hdr : List String} {rows rows' : List (List String)} {iS iA iR : Nat}
    (hinv : fs.inv = some ⟨hdr, rows⟩)
    (h : Sim.handle_production_delete fs mode = some fs')
    (hinv' : fs'.inv = some ⟨hdr, rows'⟩)
    (hS : findColumn hdr "stock" = some iS)
    (hA : findColumn hdr "stock_available" = some iA)
    (hR : findColumn hdr "reserved_stock" = some iR)
    (hall : rows.all (rowInvariantB iS iA iR) = true) :
    rows'.all (rowInvariantB iS iA iR) = true := by
  simp only [Sim.handle_production_delete] at h
  split at h
  · obtain rfl := Option.some.inj h
    rw [hinv] at hinv'
    obtain rfl : rows = rows' := congrArg Ledger.rows (Option.some.inj hinv')
    exact hall
  · rename_i text htext
    split at h
    · exact absurd h (by simp)
    · rename_i inv1 flds hcore
      obtain rfl : fs' = _ := (Option.some.inj h).symm
      simp only at hinv'
      have hinv1 : inv1 = ⟨hdr, rows'⟩ := Option.some.inj hinv'
      simp only [Sim.prodDelCore, hinv, Option.getD_some] at hcore
      split at hcore
      · exact absurd hcore (by simp)
      · rename_i rows2 resT2 resM2 dirty2 hres
        have h1 : inv1 = ⟨hdr, rows2⟩ :=
          congrArg Prod.fst (Option.some.inj hcore).symm
        have hrr : rows' = rows2 := by
          have := h1 ▸ hinv1
          exact (congrArg Ledger.rows this).symm
        rw [hrr]
        exact prodDelResolveWith_invariant hS hA hR hres hall

/-- C1 (counterexample): the claim quantifies over every inventory
state, but a mutation re-establishes the invariant only on the rows it
writes.  Concretely, with a first row whose stock_available cell is 99
against stock 10 and reserved_stock 0, an order line reserving from the
second row leaves the first row untouched, so after the Order-Handler
reservation mutation not every row satisfies
stock_available == max(0, stock - reserved_stock). -/
theorem c1_counterexample :
    (Sim.handle_order_csv c1fs "type_data").bind
        (fun fs' => fs'.inv.bind ledgerInvariantB) = some false := by
  decide

/-- C1 (amended): if every inventory row satisfies
stock_available == max(0, stock - reserved_stock) and
reserved_stock >= 0 (cells read via the tolerant integer coercion)
before the mutation, then after any Order-Handler reservation or
Production-Delete unreservation mutation every row still satisfies
both; rows the mutation writes satisfy them by construction and
untouched rows keep them. -/
theorem c1_invariant_preserved :
    (∀ (fs : GrundnerFS) (mode : String) (fs' : GrundnerFS) (hdr : List String)
       (rows rows' : List (List String)) (iS iA iR : Nat),
       fs.inv = some ⟨hdr, rows⟩ →
       Sim.handle_order_csv fs mode = some fs' →
       fs'.inv = some ⟨hdr, rows'⟩ →
       findColumn hdr "stock" = some iS →
       findColumn hdr "stock_available" = some iA →
       findColumn hdr "reserved_stock" = some iR →
       rows.all (rowInvariantB iS iA iR) = true →
       rows'.all (rowInvariantB iS iA iR) = true) ∧
    (∀ (fs : GrundnerFS) (mode : String) (fs' : GrundnerFS) (hdr : List String)
       (rows rows' : List (List String)) (iS iA iR : Nat),
       fs.inv = some ⟨hdr, rows⟩ →
       Sim.handle_production_delete fs mode = some fs' →
       fs'.inv = some ⟨hdr, rows'⟩ →
       findColumn hdr "stock" = some iS →
       findColumn hdr "stock_available" = some iA →
       findColumn hdr "reserved_stock" = some iR →
       rows.all (rowInvariantB iS iA iR) = true →
       rows'.all (rowInvariantB iS iA iR) = true) :=
  ⟨fun _ _ _ _ _ _ _ _ _ h1 h2 h3 h4 h5 h6 h7 =>
     Sim.handle_order_csv_invariant h1 h2 h3 h4 h5 h6 h7,
   fun _ _ _ _ _ _ _ _ _ h1 h2 h3 h4 h5 h6 h7 =>
     Sim.handle_production_delete_invariant h1 h2 h3 h4 h5 h6 h7⟩

/-- C1 witness: both halves of the preservation theorem applied at a
concrete one-row inventory satisfying the invariant, for an order that
reserves one unit and a production delete that releases it. -/
theorem c1_invariant_preserved_witness :
    (c1wfs.inv = some ⟨wHdr, [["5", "x", "10", "10", "0"]]⟩ ∧
     [["5", "x", "10", "10", "0"]].all (rowInvariantB 2 3 4) = true ∧
     [["5", "x", "10", "9", "1"]].all (rowInvariantB 2 3 4) = true) ∧
    (c1wfs2.inv = some ⟨wHdr, [["5", "x", "10", "9", "1"]]⟩ ∧
     [["5", "x", "10", "9", "1"]].all (rowInvariantB 2 3 4) = true ∧
     [["5", "x", "10", "10", "0"]].all (rowInvariantB 2 3 4) = true) := by
  refine ⟨⟨rfl, by decide, ?_⟩, ⟨rfl, by decide, ?_⟩⟩
  · exact c1_invariant_preserved.1 c1wfs "type_data"
      { orderText := none, erl := some "j1;5;1",
        inv := some ⟨wHdr, [["5", "x", "10", "9", "1"]]⟩,
        sidecar := [("j1.nc", "5")], mem := [("j1.nc", "5")],
        archivedOrders := ["j1;5;1"], prodDelReq := none, prodDelAns := none }
      wHdr [["5", "x", "10", "10", "0"]] [["5", "x", "10", "9", "1"]] 2 3 4
      rfl (by decide) rfl (by decide) (by decide) (by decide) (by decide)
  · exact c1_invariant_preserved.2 c1wfs2 "type_data"
      { orderText := none, erl := none,
        inv := some ⟨wHdr, [["5", "x", "10", "10", "0"]]⟩,
        sidecar := [], mem := [], archivedOrders := [],
        prodDelReq := none, prodDelAns := some "1;j1;5;5;1;0;0;0;0\r\n" }
      wHdr [["5", "x", "10", "9", "1"]] [["5", "x", "10", "10", "0"]] 2 3 4
      rfl (by decide) rfl (by decide) (by decide) (by decide) (by decide)

/-- C6: when any of the five required ledger columns is missing, the
order handler writes the acknowledgment mirror of the request and
returns without touching anything else: the inventory file, the NC maps
and the request file are all left unchanged. -/
theorem c6_missing_column_aborts :
    ∀ (fs : GrundnerFS) (mode : String) (text : String) (inv : Ledger),
      fs.orderText = some text →
      fs.inv = some inv →
      (findColumn inv.header "type_data" = none ∨
       findColumn inv.header "customer_id" = none ∨
       findColumn inv.header "stock" = none ∨
       findColumn inv.header "stock_available" = none ∨
       findColumn inv.header "reserved_stock" = none) →
      Sim.handle_order_csv fs mode =
        some { fs with erl := some text, inv := some inv } := by
  intro fs mode text inv horder hinv hmiss
  simp only [Sim.handle_order_csv, horder, hinv, Option.getD_some]
  split
  · rename_i iT iC iS iA iR hT hC hS hA hR
    rcases hmiss with hm | hm | hm | hm | hm <;> simp_all
  · rfl

/-- C6 witness: a ledger whose header lacks the stock_available column;
the handler acknowledges the order but leaves the ledger unchanged. -/
theorem c6_missing_column_aborts_witness :
    c6fs.orderText = some "j1;5;2" ∧
    c6fs.inv = some ⟨["type_data", "customer_id", "stock", "reserved_stock"],
                     [["5", "", "10", "0"]]⟩ ∧
    findColumn ["type_data", "customer_id", "stock", "reserved_stock"]
      "stock_available" = none ∧
    Sim.handle_order_csv c6fs "type_data" =
      some { c6fs with
               erl := some "j1;5;2",
               inv := some ⟨["type_data", "customer_id", "stock", "reserved_stock"],
                            [["5", "", "10", "0"]]⟩ } :=
  ⟨rfl, rfl, by decide,
   c6_missing_column_aborts c6fs "type_data" "j1;5;2" _ rfl rfl
     (Or.inr (Or.inr (Or.inr (Or.inl (by decide)))))⟩

theorem Sim.applyOrderUpdate_frame {iS iA iR : Nat} {qty : Int} {k : Nat}
    {rows rows' : List (List String)}
    (h : Sim.applyOrderUpdate iS iA iR qty k rows = some rows') :
    rows'.length = rows.length ∧
    (∀ m : Nat, (rows'[m]?).map List.length = (rows[m]?).map List.length) ∧
    (∀ m j : Nat, j ≠ iA → j ≠ iR →
      (rows'[m]?).bind (fun r => r[j]?) = (rows[m]?).bind (fun r => r[j]?)) := by
  simp only [Sim.applyOrderUpdate] at h
  split at h
  · exact absurd h (by simp)
  · rename_i row hget
    split at h
    · exact absurd h (by simp)
    · rename_i r1 h1
      split at h
      · exact absurd h (by simp)
      · rename_i r2 h2
        obtain ⟨hlt1, rfl⟩ := listSet?_eq_some h1
        obtain ⟨hlt2, rfl⟩ := listSet?_eq_some h2
        obtain rfl : rows' = _ := (Option.some.inj h).symm
        refine ⟨List.length_set .., ?_, ?_⟩
        · intro m
          by_cases hm : m = k
          · subst hm
            have hk : m < rows.length := by
              by_contra hk
              rw [List.getElem?_eq_none (by omega)] at hget
              exact absurd hget (by simp)
            rw [List.getElem?_set_self hk, hget]
            simp
          · rw [List.getElem?_set_ne (fun he => hm he.symm)]
        · intro m j hjA hjR
          by_cases hm : m = k
          · subst hm
            have hk : m < rows.length := by
              by_contra hk
              rw [List.getElem?_eq_none (by omega)] at hget
              exact absurd hget (by simp)
            rw [List.getElem?_set_self hk, hget]
            simp only [Option.some_bind]
            rw [List.getElem?_set_ne (fun he => hjR he.symm),
                List.getElem?_set_ne (fun he => hjA he.symm)]
          · rw [List.getElem?_set_ne (fun he => hm he.symm)]

theorem Sim.orderLoop_frame {mode : String} {iS iA iR : Nat}
    {byT byC : List (String × Nat)} :
    ∀ (lines : List String) (rows : List (List String))
      (mem upd : List (String × String))
      (rows' : List (List String)) (mem' upd' : List (String × String)),
      Sim.orderLoop mode iS iA iR byT byC lines rows mem upd = some (rows', mem', upd') →
      rows'.length = rows.length ∧
      (∀ m : Nat, (rows'[m]?).map List.length = (rows[m]?).map List.length) ∧
      (∀ m j : Nat, j ≠ iA → j ≠ iR →
        (rows'[m]?).bind (fun r => r[j]?) = (rows[m]?).bind (fun r => r[j]?)) := by
  intro lines
  induction lines with
  | nil =>
    intro rows mem upd rows' mem' upd' h
    simp only [Sim.orderLoop, Option.some.injEq, Prod.mk.injEq] at h
    obtain ⟨rfl, -, -⟩ := h
    exact ⟨rfl, fun _ => rfl, fun _ _ _ _ => rfl⟩
  | cons ln rest ih =>
    intro rows mem upd rows' mem' upd' h
    simp only [Sim.orderLoop] at h
    split at h
    · exact ih _ _ _ _ _ _ h
    · rename_i k hidx
      split at h
      · exact absurd h (by simp)
      · rename_i rows1 happ
        obtain ⟨hl1, hr1, hc1⟩ := Sim.applyOrderUpdate_frame happ
        obtain ⟨hl2, hr2, hc2⟩ := ih _ _ _ _ _ _ h
        refine ⟨hl2.trans hl1, fun m => (hr2 m).trans (hr1 m), ?_⟩
        intro m j hjA hjR
        exact (hc2 m j hjA hjR).trans (hc1 m j hjA hjR)

/-- C7: an Order-Handler reservation never changes the header, never
creates, deletes or reorders rows, never changes any row length, and
never changes any cell outside the stock_available and reserved_stock
columns. -/
theorem c7_frame :
    ∀ (fs : GrundnerFS) (mode : String) (fs' : GrundnerFS) (hdr hdr' : List String)
      (rows rows' : List (List String)),
      Sim.handle_order_csv fs mode = some fs' →
      fs.inv = some ⟨hdr, rows⟩ →
      fs'.inv = some ⟨hdr', rows'⟩ →
      hdr' = hdr ∧ rows'.length = rows.length ∧
      (∀ m : Nat, (rows'[m]?).map List.length = (rows[m]?).map List.length) ∧
      (∀ m j : Nat, findColumn hdr "stock_available" ≠ some j →
                    findColumn hdr "reserved_stock" ≠ some j →
        (rows'[m]?).bind (fun r => r[j]?) = (rows[m]?).bind (fun r => r[j]?)) := by
  intro fs mode fs' hdr hdr' rows rows' h hinv hinv'
  simp only [Sim.handle_order_csv, hinv, Option.getD_some] at h
  split at h
  · obtain rfl := Option.some.inj h
    rw [hinv] at hinv'
    simp only [Option.some.injEq, Ledger.mk.injEq] at hinv'
    obtain ⟨rfl, rfl⟩ := hinv'
    exact ⟨rfl, rfl, fun _ => rfl, fun _ _ _ _ => rfl⟩
  · rename_i text htext
    split at h
    · rename_i iT' iC' iS' iA' iR' hT' hC' hS' hA' hR'
      split at h
      · exact absurd h (by simp)
      · rename_i rows1 mem1 upd1 hloop
        obtain rfl : fs' = _ := (Option.some.inj h).symm
        simp only [Option.some.injEq, Ledger.mk.injEq] at hinv'
        obtain ⟨rfl, rfl⟩ := hinv'
        obtain ⟨hl, hr, hc⟩ := Sim.orderLoop_frame _ _ _ _ _ _ _ hloop
        refine ⟨rfl, hl, hr, ?_⟩
        intro m j hjA hjR
        refine hc m j (fun he => ?_) (fun he => ?_)
        · exact hjA (he ▸ hA')
        · exact hjR (he ▸ hR')
    · obtain rfl : fs' = _ := (Option.some.inj h).symm
      simp only [Option.some.injEq, Ledger.mk.injEq] at hinv'
      obtain ⟨rfl, rfl⟩ := hinv'
      exact ⟨rfl, rfl, fun _ => rfl, fun _ _ _ _ => rfl⟩

/-- C7 witness: an inventory with extra columns on both sides of the
managed ones and an extra row; the reservation changes only the two
managed cells of the matched row. -/
theorem c7_frame_witness :
    c7fs.inv = some ⟨["note", "type_data", "customer_id", "stock",
                      "stock_available", "reserved_stock", "extra"],
                     [["keep", "5", "c9", "10", "10", "0", "tail"],
                      ["keep2", "8", "", "3", "3", "0", "tail2"]]⟩ ∧
    (∀ m j : Nat,
      findColumn ["note", "type_data", "customer_id", "stock",
                  "stock_available", "reserved_stock", "extra"]
        "stock_available" ≠ some j →
      findColumn ["note", "type_data", "customer_id", "stock",
                  "stock_available", "reserved_stock", "extra"]
        "reserved_stock" ≠ some j →
      (([["keep", "5", "c9", "10", "8", "2", "tail"],
         ["keep2", "8", "", "3", "3", "0", "tail2"]][m]?).bind (fun r => r[j]?)) =
      (([["keep", "5", "c9", "10", "10", "0", "tail"],
         ["keep2", "8", "", "3", "3", "0", "tail2"]][m]?).bind (fun r => r[j]?))) := by
  refine ⟨rfl, ?_⟩
  intro m j hjA hjR
  exact (c7_frame c7fs "type_data"
      { c7fs with
          orderText := none,
          erl := some "j1;5;2",
          inv := some ⟨["note", "type_data", "customer_id", "stock",
                        "stock_available", "reserved_stock", "extra"],
                       [["keep", "5", "c9", "10", "8", "2", "tail"],
                        ["keep2", "8", "", "3", "3", "0", "tail2"]]⟩,
          sidecar := [("j1.nc", "5")],
          mem := [("j1.nc", "5")],
          archivedOrders := ["j1;5;2"] }
      ["note", "type_data", "customer_id", "stock",
       "stock_available", "reserved_stock", "extra"]
      ["note", "type_data", "customer_id", "stock",
       "stock_available", "reserved_stock", "extra"]
      [["keep", "5", "c9", "10", "10", "0", "tail"],
       ["keep2", "8", "", "3", "3", "0", "tail2"]]
      [["keep", "5", "c9", "10", "8", "2", "tail"],
       ["keep2", "8", "", "3", "3", "0", "tail2"]]
      (by decide) rfl rfl).2.2.2 m j hjA hjR

/-- C8: with a stock request present and not yet marked handled, two
consecutive invocations of the stock-query handler copy the ledger to
the reply exactly once: whether or not deleting the request succeeds,
the second invocation is a no-op (the request is gone, or its
modification time equals the remembered marker). -/
theorem c8_single_copy :
    ∀ (s : StockFS) (t : Nat) (v : String) (u1 u2 : Bool),
      s.req = some t → s.marker ≠ some t → s.ledger = some v →
      (handle_stock_request u2 (handle_stock_request u1 s)).copies = s.copies + 1 ∧
      (handle_stock_request u1 s).reply = some v := by
  intro s t v u1 u2 hreq hmark hled
  obtain ⟨req, marker, ledger, reply, copies⟩ := s
  simp only at hreq hmark hled
  subst hreq hled
  cases u1 <;> cases u2 <;>
    simp [handle_stock_request, copy_to_stock_reply, hmark]

/-- C8 witness: request with modification time 7, empty marker, ledger
present; two polls with successful then successful delete. -/
theorem c8_single_copy_witness :
    (⟨some 7, none, some "L", none, 0⟩ : StockFS).req = some 7 ∧
    (⟨some 7, none, some "L", none, 0⟩ : StockFS).marker ≠ some 7 ∧
    (⟨some 7, none, some "L", none, 0⟩ : StockFS).ledger = some "L" ∧
    (handle_stock_request true
        (handle_stock_request true ⟨some 7, none, some "L", none, 0⟩)).copies = 0 + 1 ∧
    (handle_stock_request true ⟨some 7, none, some "L", none, 0⟩).reply = some "L" :=
  ⟨rfl, by decide, rfl,
   (c8_single_copy ⟨some 7, none, some "L", none, 0⟩ 7 "L" true true rfl
      (by decide) rfl).1,
   (c8_single_copy ⟨some 7, none, some "L", none, 0⟩ 7 "L" true true rfl
      (by decide) rfl).2⟩

/-- C10: when the ledger file is absent (or never becomes readable),
handling a pending stock request writes no reply at all, yet still
deletes the request file and clears the duplicate-suppression marker:
the request is consumed without producing stock.csv. -/
theorem c10_missing_ledger_consumes_request :
    ∀ (s : StockFS) (t : Nat),
      s.req = some t → s.marker ≠ some t → s.ledger = none →
      handle_stock_request true s = { s with req := none, marker := none } := by
  intro s t hreq hmark hled
  obtain ⟨req, marker, ledger, reply, copies⟩ := s
  simp only at hreq hmark hled
  subst hreq hled
  simp [handle_stock_request, copy_to_stock_reply, hmark]

/-- C10 witness: pending request with modification time 3, no ledger;
the handler consumes the request, leaves no reply and clears the
marker. -/
theorem c10_missing_ledger_consumes_request_witness :
    (⟨some 3, none, none, none, 0⟩ : StockFS).req = some 3 ∧
    (⟨some 3, none, none, none, 0⟩ : StockFS).ledger = none ∧
    handle_stock_request true ⟨some 3, none, none, none, 0⟩ =
      { (⟨some 3, none, none, none, 0⟩ : StockFS) with req := none, marker := none } :=
  ⟨rfl, rfl,
   c10_missing_ledger_consumes_request ⟨some 3, none, none, none, 0⟩ 3 rfl
     (by decide) rfl⟩

/-! ## Last-duplicate-wins lookup index -/

theorem dget_append {α : Type} (a b : List (String × α)) (k : String) :
    dget (a ++ b) k = (dget b k).or (dget a k) := by
  unfold dget
  rw [List.reverse_append, List.find?_append]
  cases List.find? (fun p => p.1 == k) b.reverse <;>
    cases List.find? (fun p => p.1 == k) a.reverse <;> rfl

theorem dget_singleton {α : Type} (tok k : String) (v : α) :
    dget [(tok, v)] k = if tok = k then some v else none := by
  by_cases h : tok = k
  · subst h
    simp [dget, List.find?]
  · have hbe : (tok == k) = false := beq_eq_false_iff_ne.mpr h
    simp [dget, List.find?, hbe, h]

theorem buildByIdx_cons (iKey : Nat) (row : List String)
    (rest : List (List String)) (i0 : Nat) :
    buildByIdx (some iKey) (row :: rest) i0 =
      (if keyTok iKey row = "" then [] else [(keyTok iKey row, i0)]) ++
        buildByIdx (some iKey) rest (i0 + 1) := by
  simp only [buildByIdx, keyTok]
  cases hc : row[iKey]? with
  | none => rfl
  | some cell => rfl

theorem tokOfRowAt_zero (iKey : Nat) (row : List String) (rest : List (List String)) :
    tokOfRowAt iKey (row :: rest) 0 = keyTok iKey row := by
  simp [tokOfRowAt]

theorem tokOfRowAt_succ (iKey : Nat) (row : List String) (rest : List (List String))
    (d : Nat) : tokOfRowAt iKey (row :: rest) (d + 1) = tokOfRowAt iKey rest d := by
  simp [tokOfRowAt]

theorem buildByIdx_lookup_complete (iKey : Nat) (t : String) :
    ∀ (rows : List (List String)) (i0 d : Nat),
      d < rows.length → tokOfRowAt iKey rows d = t → t ≠ "" →
      ∃ k, dget (buildByIdx (some iKey) rows i0) t = some k := by
  intro rows
  induction rows with
  | nil => intro i0 d hd htok hne; simp at hd
  | cons row rest ih =>
    intro i0 d hd htok hne
    rw [buildByIdx_cons, dget_append]
    cases hrest : dget (buildByIdx (some iKey) rest (i0 + 1)) t with
    | some k => exact ⟨k, Option.or_some⟩
    | none =>
      cases d with
      | zero =>
        rw [tokOfRowAt_zero] at htok
        have hrow : keyTok iKey row = t := htok
        rw [if_neg (by rw [hrow]; exact hne)]
        refine ⟨i0, ?_⟩
        rw [Option.none_or, dget_singleton, if_pos hrow]
      | succ d =>
        obtain ⟨k, hk⟩ := ih (i0 + 1) d (by simpa using hd)
          (by rw [← tokOfRowAt_succ iKey row rest d]; exact htok) hne
        rw [hrest] at hk
        exact absurd hk (by simp)

theorem buildByIdx_lookup_sound (iKey : Nat) (t : String) :
    ∀ (rows : List (List String)) (i0 k : Nat),
      dget (buildByIdx (some iKey) rows i0) t = some k →
      ∃ d, d < rows.length ∧ k = i0 + d ∧ tokOfRowAt iKey rows d = t ∧ t ≠ "" ∧
        ∀ m, d < m → m < rows.length → tokOfRowAt iKey rows m ≠ t := by
  intro rows
  induction rows with
  | nil => intro i0 k h; simp [buildByIdx, dget] at h
  | cons row rest ih =>
    intro i0 k h
    rw [buildByIdx_cons, dget_append] at h
    cases hrest : dget (buildByIdx (some iKey) rest (i0 + 1)) t with
    | some k' =>
      rw [hrest] at h
      obtain rfl : k' = k := Option.some.inj h
      obtain ⟨d, hd, hk, htok, hne, hafter⟩ := ih (i0 + 1) k' hrest
      refine ⟨d + 1, by simpa using hd, by omega,
        by rw [tokOfRowAt_succ]; exact htok, hne, ?_⟩
      intro m hm hmlen
      cases m with
      | zero => omega
      | succ m =>
        rw [tokOfRowAt_succ]
        exact hafter m (by omega) (by simpa using hmlen)
    | none =>
      rw [hrest, Option.none_or] at h
      by_cases hrow : keyTok iKey row = ""
      · rw [if_pos hrow] at h
        simp [dget] at h
      · rw [if_neg hrow, dget_singleton] at h
        by_cases ht : keyTok iKey row = t
        · rw [if_pos ht] at h
          obtain rfl : i0 = k := Option.some.inj h
          refine ⟨0, by simp, by omega, by rw [tokOfRowAt_zero]; exact ht,
            by rw [← ht]; exact hrow, ?_⟩
          intro m hm hmlen
          cases m with
          | zero => omega
          | succ m =>
            rw [tokOfRowAt_succ]
            intro habs
            obtain ⟨k', hk'⟩ := buildByIdx_lookup_complete iKey t rest (i0 + 1) m
              (by simpa using hmlen) habs (by rw [← ht]; exact hrow)
            rw [hrest] at hk'
            exact absurd hk' (by simp)
        · rw [if_neg ht] at h
          exact absurd h (by simp)

theorem Sim.applyOrderUpdate_local {iS iA iR : Nat} {qty : Int} {k : Nat}
    {rows rows₁ : List (List String)}
    (h : Sim.applyOrderUpdate iS iA iR qty k rows = some rows₁) :
    ∀ m, m ≠ k → rows₁[m]? = rows[m]? := by
  simp only [Sim.applyOrderUpdate] at h
  split at h
  · exact absurd h (by simp)
  · split at h
    · exact absurd h (by simp)
    · split at h
      · exact absurd h (by simp)
      · rename_i r2 h2
        obtain rfl : rows₁ = _ := (Option.some.inj h).symm
        intro m hm
        exact List.getElem?_set_ne (fun he => hm he.symm)

theorem prodDelStep_local {iS iA iR : Nat} {qty : Int} {k : Nat} {lk : String}
    {rows : List (List String)} {d0 : Bool}
    {out : List (List String) × Bool}
    (h : prodDelStep iS iA iR qty (some k) lk rows d0 = some out) :
    ∀ m, m ≠ k → out.1[m]? = rows[m]? := by
  simp only [prodDelStep] at h
  split at h
  · obtain rfl : out = _ := (Option.some.inj h).symm
    intro m _; rfl
  · split at h
    · exact absurd h (by simp)
    · split at h
      · obtain rfl : out = _ := (Option.some.inj h).symm
        intro m _; rfl
      · split at h
        · exact absurd h (by simp)
        · split at h
          · exact absurd h (by simp)
          · rename_i r2 h2
            obtain rfl : out = _ := (Option.some.inj h).symm
            intro m hm
            exact List.getElem?_set_ne (fun he => hm he.symm)

/-- C9: when several inventory rows carry the same non-empty identifier
token in the active key column, the row-lookup dictionary maps that
token to the last such row, and the per-line mutations of both the
Order Handler and the Production-Delete Handler touch only the row the
dictionary returned, leaving every other row (in particular every
earlier duplicate) unchanged. -/
theorem c9_last_duplicate_wins :
    ∀ (iKey : Nat) (rows : List (List String)) (t : String) (i j : Nat),
      i < j → j < rows.length → t ≠ "" →
      tokOfRowAt iKey rows i = t → tokOfRowAt iKey rows j = t →
      ∃ k, dget (buildByIdx (some iKey) rows 0) t = some k ∧ j ≤ k ∧
        k < rows.length ∧ tokOfRowAt iKey rows k = t ∧
        (∀ m, k < m → m < rows.length → tokOfRowAt iKey rows m ≠ t) ∧
        (∀ (iS iA iR : Nat) (qty : Int) (rows₁ : List (List String)),
           Sim.applyOrderUpdate iS iA iR qty k rows = some rows₁ →
           ∀ m, m ≠ k → rows₁[m]? = rows[m]?) ∧
        (∀ (iS iA iR : Nat) (qty : Int) (lk : String) (d0 : Bool)
           (out : List (List String) × Bool),
           prodDelStep iS iA iR qty (some k) lk rows d0 = some out →
           ∀ m, m ≠ k → out.1[m]? = rows[m]?) := by
  intro iKey rows t i j hij hj hne htoki htokj
  obtain ⟨k, hk⟩ := buildByIdx_lookup_complete iKey t rows 0 j hj htokj hne
  obtain ⟨d, hd, hkd, htokd, -, hafter⟩ := buildByIdx_lookup_sound iKey t rows 0 k hk
  obtain rfl : k = d := by omega
  have hjk : j ≤ k := by
    by_contra hjk
    exact hafter j (by omega) hj htokj
  exact ⟨k, hk, hjk, hd, htokd, hafter,
    fun _ _ _ _ _ h m hm => Sim.applyOrderUpdate_local h m hm,
    fun _ _ _ _ _ _ _ h m hm => prodDelStep_local h m hm⟩

/-- C9 witness: rows 0 and 2 both carry type token 5; the lookup finds
row 2 and an order update at that index leaves rows 0 and 1 unchanged. -/
theorem c9_last_duplicate_wins_witness :
    (0 : Nat) < 2 ∧ 2 < ([["5", "a"], ["7", "b"], ["5", "c"]] :
        List (List String)).length ∧
    tokOfRowAt 0 [["5", "a"], ["7", "b"], ["5", "c"]] 0 = "5" ∧
    tokOfRowAt 0 [["5", "a"], ["7", "b"], ["5", "c"]] 2 = "5" ∧
    ∃ k, dget (buildByIdx (some 0) [["5", "a"], ["7", "b"], ["5", "c"]] 0) "5" =
        some k ∧ 2 ≤ k ∧
      k < ([["5", "a"], ["7", "b"], ["5", "c"]] : List (List String)).length ∧
      tokOfRowAt 0 [["5", "a"], ["7", "b"], ["5", "c"]] k = "5" ∧
      (∀ m, k < m → m < ([["5", "a"], ["7", "b"], ["5", "c"]] :
          List (List String)).length →
        tokOfRowAt 0 [["5", "a"], ["7", "b"], ["5", "c"]] m ≠ "5") ∧
      (∀ (iS iA iR : Nat) (qty : Int) (rows₁ : List (List String)),
         Sim.applyOrderUpdate iS iA iR qty k [["5", "a"], ["7", "b"], ["5", "c"]] =
           some rows₁ →
         ∀ m, m ≠ k → rows₁[m]? = [["5", "a"], ["7", "b"], ["5", "c"]][m]?) ∧
      (∀ (iS iA iR : Nat) (qty : Int) (lk : String) (d0 : Bool)
         (out : List (List String) × Bool),
         prodDelStep iS iA iR qty (some k) lk [["5", "a"], ["7", "b"], ["5", "c"]] d0 =
           some out →
         ∀ m, m ≠ k → out.1[m]? = [["5", "a"], ["7", "b"], ["5", "c"]][m]?) :=
  ⟨by decide, by decide, by decide, by decide,
   c9_last_duplicate_wins 0 [["5", "a"], ["7", "b"], ["5", "c"]] "5" 0 2
     (by decide) (by decide) (by decide) (by decide) (by decide)⟩

/-- C2 (counterexample): the grundner_sim.py copy derives
production-delete rows with no regard to the id-mode, so also under
customer_id id-mode a numeric token such as 5 lands in the type column
and never in the material column, and a zero-like token makes it mine a
numeric type out of the job-number digits — both contradicting the
claim for that copy. -/
theorem c2_counterexample :
    (GSim.derive_row_from_request "JOB1;5;1").type_col = "5" ∧
    (GSim.derive_row_from_request "JOB1;5;1").material_col = "" ∧
    (GSim.derive_row_from_request "JOB7;0;1").type_col = "7" ∧
    GSim.prodDelAnswerFields c3fs "customer_id" =
      some [["1", "J1", "5", "", "2", "0", "0", "0", "0"]] := by
  decide

/-- C2 (amended, simulator.py copy): in customer_id id-mode the derived
row never carries a type token (so nothing is inferred from the
job-number text), and any non-zero-like second-field token is placed
verbatim in the material column. -/
theorem c2_customer_id_token_is_material :
    ∀ line : String,
      (Sim.derive_row_from_request line "customer_id").type_col = "" ∧
      (¬(reqSecondToken line = "" ∨ reqSecondToken line = "0" ∨
         reqSecondToken line = "00" ∨ reqSecondToken line = "000" ∨
         reqSecondToken line = "0000") →
        (Sim.derive_row_from_request line "customer_id").material_col =
          reqSecondToken line) := by
  intro line
  unfold reqSecondToken
  constructor
  · simp [Sim.derive_row_from_request]
  · intro h
    simp only [Sim.derive_row_from_request]
    simp only [show ("customer_id" == "type_data") = false by decide, Bool.false_eq_true,
      if_false]
    rw [if_neg h]

/-- C2 witness: the line J1;ABC;2 in customer_id id-mode derives an
empty type column and material ABC. -/
theorem c2_customer_id_token_is_material_witness :
    (Sim.derive_row_from_request "J1;ABC;2" "customer_id").type_col = "" ∧
    ¬(reqSecondToken "J1;ABC;2" = "" ∨ reqSecondToken "J1;ABC;2" = "0" ∨
      reqSecondToken "J1;ABC;2" = "00" ∨ reqSecondToken "J1;ABC;2" = "000" ∨
      reqSecondToken "J1;ABC;2" = "0000") ∧
    (Sim.derive_row_from_request "J1;ABC;2" "customer_id").material_col =
      reqSecondToken "J1;ABC;2" :=
  ⟨(c2_customer_id_token_is_material "J1;ABC;2").1, by decide,
   (c2_customer_id_token_is_material "J1;ABC;2").2 (by decide)⟩

/-- C5 (counterexample): the grundner_sim.py copy of
build_nc_material_map never consults the persisted JSON sidecar: with
an entry only in the sidecar and every other source empty, the
simulator.py copy resolves it and the grundner_sim.py copy does not, so
the four-source merge claim fails for that copy. -/
theorem c5_counterexample :
    dget (Sim.build_nc_material_map [("job1.nc", "5")] [] none []) "job1.nc" =
      some "5" ∧
    dget (GSim.build_nc_material_map [] none []) "job1.nc" = none := by
  decide

/-- C5 (amended, simulator.py copy): the resolution map looks a key up
with increasing priority in (1) the loaded sidecar, (2) the in-memory
session map, (3) the current unconsumed order request, (4) the archived
order requests oldest to newest, each later source overriding the
earlier ones; and appending a newer archive overrides all older
archives for the keys it contains. -/
theorem c5_resolution_map_priority :
    (∀ (sidecar mem : List (String × String)) (cur : Option String)
       (archs : List String) (k : String),
       dget (Sim.build_nc_material_map sidecar mem cur archs) k =
         ((dget ((archs.map Sim.orderEntriesOfText).flatten) k).or
           ((dget (curEntries Sim.orderEntriesOfText cur) k).or
             ((dget mem k).or (dget (loadNcMap sidecar) k))))) ∧
    (∀ (archs₁ : List String) (a : String) (k : String),
       dget (((archs₁ ++ [a]).map Sim.orderEntriesOfText).flatten) k =
         (dget (Sim.orderEntriesOfText a) k).or
           (dget ((archs₁.map Sim.orderEntriesOfText).flatten) k)) := by
  constructor
  · intro sidecar mem cur archs k
    unfold Sim.build_nc_material_map
    rw [dget_append, dget_append, dget_append]
  · intro archs₁ a k
    rw [List.map_append, List.flatten_append]
    rw [dget_append]
    simp [dget_append]

/-! ## Answer-field equality of the type and material positions -/

theorem fieldsEq34_answerFieldsSim :
    ∀ (es : List DerivedRow) (rts rms : List String) (k : Nat),
      fieldsEq34 (answerFieldsWith Sim.answerRowMk es rts rms k) = true := by
  intro es
  induction es with
  | nil => intro rts rms k; rfl
  | cons e es ih =>
    intro rts rms k
    simp only [answerFieldsWith, fieldsEq34, List.all_cons, Bool.and_eq_true]
    refine ⟨?_, ih rts.tail rms.tail (if k < 255 then k + 1 else 1)⟩
    simp [Sim.answerRowMk]

/-- C3 (counterexample): the grundner_sim.py copy writes the resolved
type token into the third output position and the resolved material
token into the fourth, and these differ: for request line J1;5;2 in
type_data id-mode the answer row is 1;J1;5;;2;0;0;0;0, with position 3
equal to 5 and position 4 empty. -/
theorem c3_counterexample :
    (GSim.prodDelAnswerFields c3fs "type_data").map fieldsEq34 = some false := by
  decide

/-- C3 (amended, simulator.py copy): every answer row the
production-delete handler emits carries the same resolved material
token in the third and fourth semicolon-delimited positions. -/
theorem c3_type_material_fields_equal :
    ∀ (fs : GrundnerFS) (mode : String) (flds : List (List String)),
      Sim.prodDelAnswerFields fs mode = some flds → fieldsEq34 flds = true := by
  intro fs mode flds h
  simp only [Sim.prodDelAnswerFields] at h
  split at h
  · exact absurd h (by simp)
  · rename_i text htext
    simp only [Sim.prodDelCore] at h
    split at h
    · exact absurd h (by simp)
    · rename_i rows2 resT2 resM2 d2 hres
      simp only [Option.map_some'] at h
      obtain rfl : flds = _ := (Option.some.inj h).symm
      exact fieldsEq34_answerFieldsSim _ _ _ _

/-- C3 witness: a two-line request against a one-row inventory; both
answer rows repeat the resolved token in positions 3 and 4. -/
theorem c3_type_material_fields_equal_witness :
    Sim.prodDelAnswerFields c4fs "type_data" =
      some [["1", "J1", "5", "5", "2", "0", "0", "0", "0"],
            ["2", "J2", "7", "7", "1", "0", "0", "0", "0"]] ∧
    fieldsEq34 [["1", "J1", "5", "5", "2", "0", "0", "0", "0"],
                ["2", "J2", "7", "7", "1", "0", "0", "0", "0"]] = true :=
  ⟨by decide,
   c3_type_material_fields_equal c4fs "type_data"
     [["1", "J1", "5", "5", "2", "0", "0", "0", "0"],
      ["2", "J2", "7", "7", "1", "0", "0", "0", "0"]] (by decide)⟩

/-! ## Answer shape: row count, sequence numbers, CRLF framing -/

theorem answerFieldsWith_length (mk : DerivedRow → String → String → List String) :
    ∀ (es : List DerivedRow) (rts rms : List String) (k : Nat),
      (answerFieldsWith mk es rts rms k).length = es.length := by
  intro es
  induction es with
  | nil => intro rts rms k; rfl
  | cons e es ih =>
    intro rts rms k
    simp only [answerFieldsWith, List.length_cons, ih]

theorem answerFieldsWith_head (mk : DerivedRow → String → String → List String) :
    ∀ (es : List DerivedRow) (rts rms : List String) (k : Nat),
      1 ≤ k → k ≤ 255 →
      ∀ i : Nat, i < es.length →
        ((answerFieldsWith mk es rts rms k)[i]?).bind (fun r => r[0]?) =
          some (natToStr ((k - 1 + i) % 255 + 1)) := by
  intro es
  induction es with
  | nil => intro rts rms k hk1 hk2 i hi; simp at hi
  | cons e es ih =>
    intro rts rms k hk1 hk2 i hi
    cases i with
    | zero =>
      simp only [answerFieldsWith, List.getElem?_cons_zero, Option.some_bind,
        List.getElem?_cons_zero]
      have : (k - 1 + 0) % 255 + 1 = k := by omega
      rw [this]
    | succ i =>
      simp only [answerFieldsWith, List.getElem?_cons_succ]
      by_cases hk : k < 255
      · rw [if_pos hk]
        have := ih rts.tail rms.tail (k + 1) (by omega) (by omega) i (by simpa using hi)
        rw [this]
        congr 2
        omega
      · rw [if_neg hk]
        have := ih rts.tail rms.tail 1 (by omega) (by omega) i (by simpa using hi)
        rw [this]
        congr 2
        have hx : k = 255 := by omega
        subst hx
        omega

theorem joinSep_crlf_append :
    ∀ (rows : List String), rows ≠ [] →
      joinSep "\r\n" rows ++ "\r\n" = concatCRLF rows := by
  intro rows
  induction rows with
  | nil => intro h; exact absurd rfl h
  | cons x tl ih =>
    intro _
    cases tl with
    | nil =>
      simp only [joinSep, concatCRLF, List.foldr]
      rw [String.append_empty]
    | cons y tl' =>
      have ih' := ih (by simp)
      show (x ++ "\r\n" ++ joinSep "\r\n" (y :: tl')) ++ "\r\n" =
        x ++ "\r\n" ++ concatCRLF (y :: tl')
      rw [String.append_assoc (x ++ "\r\n"), ih']

theorem outTextOf_nil : outTextOf [] = "\r\n" := rfl

theorem outTextOf_cons (flds : List (List String)) (hne : flds ≠ []) :
    outTextOf flds = concatCRLF (flds.map (joinSep ";")) := by
  unfold outTextOf
  rw [if_neg (by simpa using hne)]
  exact joinSep_crlf_append _ (by simpa using hne)

theorem simProdDelAnsLink :
    ∀ (fs : GrundnerFS) (mode text : String) (fs' : GrundnerFS)
      (flds : List (List String)),
      fs.prodDelReq = some text →
      Sim.prodDelAnswerFields fs mode = some flds →
      Sim.handle_production_delete fs mode = some fs' →
      fs'.prodDelAns = some (outTextOf flds) := by
  intro fs mode text fs' flds hreq hflds hh
  simp only [Sim.prodDelAnswerFields, hreq] at hflds
  simp only [Sim.handle_production_delete, hreq] at hh
  cases hcore : Sim.prodDelCore fs mode text with
  | none => rw [hcore] at hh; exact absurd hh (by simp)
  | some pr =>
    rw [hcore] at hflds hh
    simp only [Option.map_some'] at hflds
    obtain rfl : flds = pr.2 := (Option.some.inj hflds).symm
    obtain ⟨inv', flds'⟩ := pr
    obtain rfl : fs' = _ := (Option.some.inj hh).symm
    rfl

theorem gsimProdDelAnsLink :
    ∀ (fs : GrundnerFS) (mode text : String) (fs' : GrundnerFS)
      (flds : List (List String)),
      fs.prodDelReq = some text →
      GSim.prodDelAnswerFields fs mode = some flds →
      GSim.handle_production_delete fs mode = some fs' →
      fs'.prodDelAns = some (outTextOf flds) := by
  intro fs mode text fs' flds hreq hflds hh
  simp only [GSim.prodDelAnswerFields, hreq] at hflds
  simp only [GSim.handle_production_delete, hreq] at hh
  cases hcore : GSim.prodDelCore fs mode text with
  | none => rw [hcore] at hh; exact absurd hh (by simp)
  | some pr =>
    rw [hcore] at hflds hh
    simp only [Option.map_some'] at hflds
    obtain rfl : flds = pr.2 := (Option.some.inj hflds).symm
    obtain ⟨inv', flds'⟩ := pr
    obtain rfl : fs' = _ := (Option.some.inj hh).symm
    rfl

/-- C4: for both copies of the production-delete handler, the answer
has exactly one row per non-blank request line; the one-based sequence
number of row i is i mod 255 plus 1, wrapping from 255 back to 1; with
no rows the serialized answer is a lone CRLF; with rows it is exactly
the semicolon-joined rows each terminated by CRLF (hence a trailing
CRLF); and the handler writes exactly this serialization into the
answer file. -/
theorem c4_answer_shape :
    (∀ (fs : GrundnerFS) (mode text : String) (flds : List (List String)),
       fs.prodDelReq = some text →
       Sim.prodDelAnswerFields fs mode = some flds →
       flds.length = (splitNonblankLines text).length ∧
       (∀ i : Nat, i < flds.length →
          (flds[i]?).bind (fun r => r[0]?) = some (natToStr (i % 255 + 1))) ∧
       (flds = [] → outTextOf flds = "\r\n") ∧
       (flds ≠ [] → outTextOf flds = concatCRLF (flds.map (joinSep ";"))) ∧
       (∀ fs', Sim.handle_production_delete fs mode = some fs' →
          fs'.prodDelAns = some (outTextOf flds))) ∧
    (∀ (fs : GrundnerFS) (mode text : String) (flds : List (List String)),
       fs.prodDelReq = some text →
       GSim.prodDelAnswerFields fs mode = some flds →
       flds.length = (splitNonblankLines text).length ∧
       (∀ i : Nat, i < flds.length →
          (flds[i]?).bind (fun r => r[0]?) = some (natToStr (i % 255 + 1))) ∧
       (flds = [] → outTextOf flds = "\r\n") ∧
       (flds ≠ [] → outTextOf flds = concatCRLF (flds.map (joinSep ";"))) ∧
       (∀ fs', GSim.handle_production_delete fs mode = some fs' →
          fs'.prodDelAns = some (outTextOf flds))) := by
  constructor
  · intro fs mode text flds hreq hflds
    have hlink := fun fs' hh => simProdDelAnsLink fs mode text fs' flds hreq hflds hh
    simp only [Sim.prodDelAnswerFields, hreq, Sim.prodDelCore] at hflds
    split at hflds
    · exact absurd hflds (by simp)
    · rename_i rows2 resT2 resM2 d2 hres
      simp only [Option.map_some'] at hflds
      obtain rfl : flds = _ := (Option.some.inj hflds).symm
      refine ⟨?_, ?_, ?_, ?_, hlink⟩
      · rw [answerFieldsWith_length]
        simp
      · intro i hi
        rw [answerFieldsWith_length] at hi
        have hhead := answerFieldsWith_head Sim.answerRowMk _ resT2 resM2 1
          (by omega) (by omega) i hi
        have heq : 1 - 1 + i = i := by omega
        rw [heq] at hhead
        exact hhead
      · intro h0
        rw [h0]
        rfl
      · exact outTextOf_cons _
  · intro fs mode text flds hreq hflds
    have hlink := fun fs' hh => gsimProdDelAnsLink fs mode text fs' flds hreq hflds hh
    simp only [GSim.prodDelAnswerFields, hreq, GSim.prodDelCore] at hflds
    split at hflds
    · exact absurd hflds (by simp)
    · rename_i rows2 resT2 resM2 d2 hres
      simp only [Option.map_some'] at hflds
      obtain rfl : flds = _ := (Option.some.inj hflds).symm
      refine ⟨?_, ?_, ?_, ?_, hlink⟩
      · rw [answerFieldsWith_length]
        simp
      · intro i hi
        rw [answerFieldsWith_length] at hi
        have hhead := answerFieldsWith_head GSim.answerRowMk _ resT2 resM2 1
          (by omega) (by omega) i hi
        have heq : 1 - 1 + i = i := by omega
        rw [heq] at hhead
        exact hhead
      · intro h0
        rw [h0]
        rfl
      · exact outTextOf_cons _

/-- C4 witness: a two-line request processed by the simulator.py copy;
the answer has two rows with sequence numbers 1 and 2 and the CRLF
framing of the theorem. -/
theorem c4_answer_shape_witness :
    c4fs.prodDelReq = some "J1;5;2\r\nJ2;7;1\r\n" ∧
    Sim.prodDelAnswerFields c4fs "type_data" =
      some [["1", "J1", "5", "5", "2", "0", "0", "0", "0"],
            ["2", "J2", "7", "7", "1", "0", "0", "0", "0"]] ∧
    (([["1", "J1", "5", "5", "2", "0", "0", "0", "0"],
       ["2", "J2", "7", "7", "1", "0", "0", "0", "0"]] :
        List (List String)).length =
        (splitNonblankLines "J1;5;2\r\nJ2;7;1\r\n").length ∧
     (∀ i : Nat, i < ([["1", "J1", "5", "5", "2", "0", "0", "0", "0"],
          ["2", "J2", "7", "7", "1", "0", "0", "0", "0"]] :
           List (List String)).length →
        (([["1", "J1", "5", "5", "2", "0", "0", "0", "0"],
           ["2", "J2", "7", "7", "1", "0", "0", "0", "0"]] :
            List (List String))[i]?).bind (fun r => r[0]?) =
          some (natToStr (i % 255 + 1))) ∧
     (([["1", "J1", "5", "5", "2", "0", "0", "0", "0"],
        ["2", "J2", "7", "7", "1", "0", "0", "0", "0"]] :
         List (List String)) = [] →
       outTextOf [["1", "J1", "5", "5", "2", "0", "0", "0", "0"],
                  ["2", "J2", "7", "7", "1", "0", "0", "0", "0"]] = "\r\n") ∧
     (([["1", "J1", "5", "5", "2", "0", "0", "0", "0"],
        ["2", "J2", "7", "7", "1", "0", "0", "0", "0"]] :
         List (List String)) ≠ [] →
       outTextOf [["1", "J1", "5", "5", "2", "0", "0", "0", "0"],
                  ["2", "J2", "7", "7", "1", "0", "0", "0", "0"]] =
         concatCRLF (([["1", "J1", "5", "5", "2", "0", "0", "0", "0"],
                       ["2", "J2", "7", "7", "1", "0", "0", "0", "0"]] :
                        List (List String)).map (joinSep ";"))) ∧
     (∀ fs', Sim.handle_production_delete c4fs "type_data" = some fs' →
        fs'.prodDelAns =
          some (outTextOf [["1", "J1", "5", "5", "2", "0", "0", "0", "0"],
                           ["2", "J2", "7", "7", "1", "0", "0", "0", "0"]]))) :=
  ⟨rfl, by decide,
   c4_answer_shape.1 c4fs "type_data" "J1;5;2\r\nJ2;7;1\r\n"
     [["1", "J1", "5", "5", "2", "0", "0", "0", "0"],
      ["2", "J2", "7", "7", "1", "0", "0", "0", "0"]] rfl (by decide)⟩
